import Mathlib

/-!
Verification of the review-harvester core of the `google-reviews-analyzer`
repository, as a shallow embedding in Lean 4.

The embedding models the two scraper modules:

* `src/scrape_reviews.py` — namespace `ScrapeReviews`: captcha detection,
  per-block record extraction with snippet deduplication, relative-date
  normalization, the scroll/stagnation convergence loop, the DB upsert and
  the multi-feed driver `scrape_reviews_from_place_urls`.
* `src/scrape.py` — namespace `ScrapeCsv`: the CSV variant's rating parser
  and review-id (fingerprint) derivation with its deduplication loop.

Conventions of the embedding:

* Python strings are Lean `String`s processed as `List Char` (one element
  per Unicode code point, matching Python's `len`/slicing semantics).
* BeautifulSoup DOM queries are not translatable; a parsed snapshot is
  modelled as the list of item blocks the `find_all` call yields, each
  block carrying the text each fixed sub-selector would resolve to.  A
  block whose per-block processing raises an internal error (the
  `except Exception: continue` arm) is the `malformed` constructor.
* `datetime.utcnow()` is a parameter `nowDays : Int`, the calendar date of
  the observation instant counted in days from 1970-01-01; `timedelta`
  subtraction of whole days and `strftime("%Y-%m-%d")` act on that date.
* Python regex classes are approximated on the character ranges the code
  can meet: `\d` covers ASCII and Arabic-Indic decimal digits, `\s` the
  ASCII whitespace class, `\w` ASCII word characters (non-ASCII characters
  are treated as word characters); `str.lower` lowers the ASCII range.
-/

/-! ## Character and string primitives -/

/-- Python `str.lower`, restricted to the ASCII range. -/
def pyLower (c : Char) : Char :=
  if 65 ≤ c.toNat ∧ c.toNat ≤ 90 then Char.ofNat (c.toNat + 32) else c

/-- Python `str.lower` over a whole string (as a code-point list). -/
def lowerList (l : List Char) : List Char := l.map pyLower

/-- Regex `\s` (ASCII part): space, tab, newline, carriage return,
vertical tab, form feed. -/
def isPySpace (c : Char) : Bool :=
  c.toNat = 32 ∨ c.toNat = 9 ∨ c.toNat = 10 ∨ c.toNat = 13 ∨
    c.toNat = 11 ∨ c.toNat = 12

/-- Regex `\d`: decimal digit value of a character; covers ASCII `0-9` and
Arabic-Indic `٠-٩` (the two digit scripts the scraped pages use). -/
def pyDigitVal (c : Char) : Option Nat :=
  if 48 ≤ c.toNat ∧ c.toNat ≤ 57 then some (c.toNat - 48)
  else if 1632 ≤ c.toNat ∧ c.toNat ≤ 1641 then some (c.toNat - 1632)
  else none

/-- `true` iff the character is a decimal digit in the sense of `pyDigitVal`. -/
def isPyDigit (c : Char) : Bool := (pyDigitVal c).isSome

/-- Regex `\w`: ASCII letters, digits, underscore; every non-ASCII
character is conservatively treated as a word character (Python's Unicode
`\w` classifies the Arabic letters of the scraped pages that way). -/
def isWordChar (c : Char) : Bool :=
  (48 ≤ c.toNat ∧ c.toNat ≤ 57) ∨ (65 ≤ c.toNat ∧ c.toNat ≤ 90) ∨
    (97 ≤ c.toNat ∧ c.toNat ≤ 122) ∨ c.toNat = 95 ∨ 128 ≤ c.toNat

/-- `int(...)` of a run of decimal digits. -/
def digitsVal (ds : List Char) : Nat :=
  ds.foldl (fun a c => a * 10 + (pyDigitVal c).getD 0) 0

/-- Python `str.strip` from the left. -/
def lstrip (l : List Char) : List Char := l.dropWhile isPySpace

/-- Python `str.strip` from the right. -/
def rstrip (l : List Char) : List Char := (l.reverse.dropWhile isPySpace).reverse

/-- Python `str.strip`. -/
def stripList (l : List Char) : List Char := rstrip (lstrip l)

/-- Python's substring operator `needle in hay`. -/
def containsSub (hay needle : List Char) : Bool :=
  hay.tails.any (fun t => needle.isPrefixOf t)

/-! ## `_is_captcha_page` (`src/scrape_reviews.py:28-39`, identical in
`src/scrape.py:46-57`) -/

namespace ScrapeReviews

/-- The fixed interstitial phrase list `captcha_signs`. -/
def captcha_signs : List String :=
  ["unusual traffic",
   "Our systems have detected unusual traffic",
   "To continue, please",
   "help us confirm",
   "Please show you're not a robot",
   "Recaptcha"]

/-- `_is_captcha_page(html)`: case-insensitive substring match of any
sign against the snapshot text. -/
def is_captcha_page (html : String) : Bool :=
  captcha_signs.any (fun s => containsSub (lowerList html.data) (lowerList s.data))

/-! ## `parse_rating_from_text` (`src/scrape_reviews.py:52-58`) -/

/-- The `arabic_map` digit-translation table: Arabic-Indic digits become
ASCII digits, every other character is kept (`arabic_map.get(ch, ch)`). -/
def arabicMapChar (c : Char) : Char :=
  if 1632 ≤ c.toNat ∧ c.toNat ≤ 1641 then Char.ofNat (c.toNat - 1632 + 48) else c

/-- Does `\b` hold between a word character and this remainder of the
string? -/
def boundaryAfterWord (l : List Char) : Bool :=
  match l with
  | [] => true
  | c :: _ => ¬ isWordChar c

/-- `re.search(r"([0-9])(\.0)?\b", norm)`: leftmost single ASCII digit
followed (after an optional `.0`) by a word boundary; returns the digit's
value.  The scan tries each position left to right, exactly as `re.search`
does. -/
def ratingSearch : List Char → Option Nat
  | [] => none
  | c :: rest =>
    if 48 ≤ c.toNat ∧ c.toNat ≤ 57 then
      match rest with
      | '.' :: '0' :: rest2 =>
        if boundaryAfterWord rest2 then some (c.toNat - 48)
        else if boundaryAfterWord rest then some (c.toNat - 48)
        else ratingSearch rest
      | _ =>
        if boundaryAfterWord rest then some (c.toNat - 48) else ratingSearch rest
    else ratingSearch rest

/-- `parse_rating_from_text(s)`: `None` for an empty/missing string, else
the Arabic-digit normalisation followed by the single-digit regex search. -/
def parse_rating_from_text (s : String) : Option Nat :=
  if s = "" then none
  else ratingSearch (s.data.map arabicMapChar)

/-- The rating a record actually receives: `rating or 0`
(`src/scrape_reviews.py:148`). -/
def ratingOfLabel (s : String) : Nat := (parse_rating_from_text s).getD 0

end ScrapeReviews

/-! ## Calendar arithmetic

`datetime` subtraction of a whole number of days followed by
`strftime("%Y-%m-%d")` is embedded through the days-since-1970-01-01
representation of the proleptic Gregorian date (civil-calendar conversion
in the style of Howard Hinnant's algorithms). -/

/-- Gregorian `(year, month, day)` of a days-since-1970-01-01 count. -/
def civilFromDays (z0 : Int) : Int × Int × Int :=
  let z := z0 + 719468
  let era := z.fdiv 146097
  let doe := z - era * 146097
  let yoe := (doe - doe.fdiv 1460 + doe.fdiv 36524 - doe.fdiv 146096).fdiv 365
  let y := yoe + era * 400
  let doy := doe - (365 * yoe + yoe.fdiv 4 - yoe.fdiv 100)
  let mp := (5 * doy + 2).fdiv 153
  let d := doy - (153 * mp + 2).fdiv 5 + 1
  let m := mp + (if mp < 10 then 3 else -9)
  (y + (if m ≤ 2 then 1 else 0), m, d)

/-- Days since 1970-01-01 of a Gregorian `(year, month, day)`. -/
def daysFromCivil (y0 m d : Int) : Int :=
  let y := y0 - (if m ≤ 2 then 1 else 0)
  let era := y.fdiv 400
  let yoe := y - era * 400
  let mp := (m + 9).emod 12
  let doy := (153 * mp + 2).fdiv 5 + d - 1
  let doe := yoe * 365 + yoe.fdiv 4 - yoe.fdiv 100 + doy
  era * 146097 + doe - 719468

/-- Zero-padded two-digit field (`%m`, `%d`). -/
def pad2 (n : Int) : String :=
  if n < 10 then "0" ++ toString n.toNat else toString n.toNat

/-- Zero-padded four-digit year (`%Y`; the dates the scraper meets have
four-digit years). -/
def pad4 (n : Int) : String :=
  if n < 10 then "000" ++ toString n.toNat
  else if n < 100 then "00" ++ toString n.toNat
  else if n < 1000 then "0" ++ toString n.toNat
  else toString n.toNat

/-- `strftime("%Y-%m-%d")` of a days-since-1970-01-01 count. -/
def formatDate (z : Int) : String :=
  let c := civilFromDays z
  pad4 c.1 ++ "-" ++ pad2 c.2.1 ++ "-" ++ pad2 c.2.2

namespace ScrapeReviews

/-! ## `parse_relative_date` (`src/scrape_reviews.py:61-111`, identical in
`src/scrape.py:82-132`) -/

/-- Does `re.sub(r"\s+on\s+.*$", "", text)`'s pattern match starting at
this exact position?  (`\s+`, then the literal `on`, then `\s+`, then a
newline-free remainder reaching the end of the already-stripped string.) -/
def onSourceMatchAt (l : List Char) : Bool :=
  !(l.takeWhile isPySpace).isEmpty &&
    (match l.dropWhile isPySpace with
     | 'o' :: 'n' :: rest =>
       !(rest.takeWhile isPySpace).isEmpty &&
         !((rest.dropWhile isPySpace).contains '\n')
     | _ => false)

/-- `re.sub(r"\s+on\s+.*$", "", text)`: drop the remainder of the string
from the leftmost position where the pattern matches. -/
def removeOnSuffix : List Char → List Char
  | [] => []
  | c :: rest => if onSourceMatchAt (c :: rest) then [] else c :: removeOnSuffix rest

/-- After the digit run of `(\d+)\s+unit`: at least one whitespace
character, then the literal unit word as a prefix of the remainder. -/
def afterNumTail (l : List Char) (unit : List Char) : Bool :=
  !(l.takeWhile isPySpace).isEmpty && unit.isPrefixOf (l.dropWhile isPySpace)

/-- `re.search(r"(\d+)\s+unit", text)` for a fixed unit word: leftmost
maximal digit run followed by whitespace and the unit literal; returns
`int` of the digit run. -/
def searchNumUnit : List Char → List Char → Option Nat
  | [], _ => none
  | c :: rest, unit =>
    if isPyDigit c then
      if afterNumTail ((c :: rest).dropWhile isPyDigit) unit then
        some (digitsVal ((c :: rest).takeWhile isPyDigit))
      else searchNumUnit rest unit
    else searchNumUnit rest unit

/-- Does `قبل\s+(\d+)\s*unit` match anchored at this position?  Returns
`int` of the digit group when it does. -/
def arabicMatchAt (l : List Char) (unit : List Char) : Option Nat :=
  if ['ق', 'ب', 'ل'].isPrefixOf l then
    let r1 := l.drop 3
    if !(r1.takeWhile isPySpace).isEmpty then
      let r2 := r1.dropWhile isPySpace
      let ds := r2.takeWhile isPyDigit
      if !ds.isEmpty then
        if unit.isPrefixOf ((r2.dropWhile isPyDigit).dropWhile isPySpace) then
          some (digitsVal ds)
        else none
      else none
    else none
  else none

/-- `re.search(r"قبل\s+(\d+)\s*unit", text)`: leftmost match of
`arabicMatchAt`. -/
def searchArabicUnit : List Char → List Char → Option Nat
  | [], _ => none
  | c :: rest, unit =>
    match arabicMatchAt (c :: rest) unit with
    | some n => some n
    | none => searchArabicUnit rest unit

/-- `parse_relative_date(text)` with the observation date
(`datetime.utcnow()`'s calendar date) supplied as `nowDays`, in days since
1970-01-01.  English patterns are tried day/week/month/year first, then
the Arabic equivalents; a week is 7 days, a month `30*num` days, a year
`365*num` days; anything else falls through to the stripped, lowercased
text with any trailing `on <source>` removed. -/
def parse_relative_date (nowDays : Int) (text : String) : String :=
  if text = "" then ""
  else
    let t0 := lowerList (stripList text.data)
    let t := stripList (removeOnSuffix t0)
    match searchNumUnit t "day".data with
    | some n => formatDate (nowDays - n)
    | none =>
    match searchNumUnit t "week".data with
    | some n => formatDate (nowDays - 7 * n)
    | none =>
    match searchNumUnit t "month".data with
    | some n => formatDate (nowDays - 30 * n)
    | none =>
    match searchNumUnit t "year".data with
    | some n => formatDate (nowDays - 365 * n)
    | none =>
    match searchArabicUnit t "يوم".data with
    | some n => formatDate (nowDays - n)
    | none =>
    match searchArabicUnit t "أسبوع".data with
    | some n => formatDate (nowDays - 7 * n)
    | none =>
    match searchArabicUnit t "شهر".data with
    | some n => formatDate (nowDays - 30 * n)
    | none =>
    match searchArabicUnit t "سنة".data with
    | some n => formatDate (nowDays - 365 * n)
    | none => String.mk t

end ScrapeReviews

namespace ScrapeReviews

/-! ## `_extract_reviews_from_html` (`src/scrape_reviews.py:42-159`) -/

/-- Default of the `MAX_REVIEWS_PER_BRANCH` environment knob
(`src/scrape_reviews.py:18`). -/
def MAX_REVIEWS_PER_BRANCH : Nat := 10

/-- What the fixed sub-selectors resolve to inside one
`div[data-review-id]` item block of the snapshot:

* `dataReviewId` — the value of the `data-review-id` attribute (present on
  every block `find_all` yields, never read by this extractor);
* `authorTag` — stripped text of `div.d4r55.fontTitleMedium`, when found;
* `ratingLabel` — the `aria-label` of `span[role=img]` (`""` when the tag
  or the attribute is absent, which `parse_rating_from_text` maps to
  `None` either way);
* `textContainer` — text of `div.MyEned`, when found;
* `dateTag` — text of `span.xRkPPb`, when found. -/
structure RawBlockFields where
  dataReviewId : String
  authorTag : Option String
  ratingLabel : String
  textContainer : Option String
  dateTag : Option String
deriving Repr, DecidableEq

/-- One item block of a snapshot; `malformed` stands for a block whose
per-block processing raises an internal error and lands in the
`except Exception: continue` arm. -/
inductive Block
  | node (f : RawBlockFields)
  | malformed
deriving Repr, DecidableEq

/-- Is this the `malformed` block? -/
def Block.isMalformed : Block → Bool
  | .malformed => true
  | .node _ => false

/-- One extracted record, as appended to `reviews`
(`src/scrape_reviews.py:146-151`). -/
structure ReviewRec where
  author : String
  rating : Nat
  text : String
  review_date : String
deriving Repr, DecidableEq

/-- The record a well-formed block yields before deduplication. -/
def candRecord (nowDays : Int) (f : RawBlockFields) : ReviewRec :=
  { author := (f.authorTag).getD "Unknown"
    rating := ratingOfLabel f.ratingLabel
    text := (f.textContainer).getD ""
    review_date := parse_relative_date nowDays ((f.dateTag).getD "") }

/-- Does a block survive the noise filter
(`if not review_text or len(review_text) < 10: continue`)? -/
def passesTextFilter (f : RawBlockFields) : Bool :=
  let t := (f.textContainer).getD ""
  !(t = "" ∨ t.data.length < 10)

/-- The deduplication key: `snippet = review_text[:160]`
(`src/scrape_reviews.py:141`). -/
def snippetOf (r : ReviewRec) : String := String.mk (r.text.data.take 160)

/-- The `for b in blocks` loop of `_extract_reviews_from_html`, carrying
the `reviews` accumulator and the `seen_texts` set (modelled as the list
of keys added so far); returns both.  A `malformed` block is skipped; a
record whose snippet was already seen is skipped; otherwise the record is
appended, its snippet recorded, and the loop breaks once
`MAX_REVIEWS_PER_BRANCH` records are collected. -/
def extractLoop (nowDays : Int) :
    List Block → List ReviewRec → List String → List ReviewRec × List String
  | [], revs, seen => (revs, seen)
  | .malformed :: bs, revs, seen => extractLoop nowDays bs revs seen
  | .node f :: bs, revs, seen =>
    if passesTextFilter f then
      let r := candRecord nowDays f
      if seen.contains (snippetOf r) then extractLoop nowDays bs revs seen
      else
        let revs' := revs ++ [r]
        let seen' := snippetOf r :: seen
        if MAX_REVIEWS_PER_BRANCH ≤ revs'.length then (revs', seen')
        else extractLoop nowDays bs revs' seen'
    else extractLoop nowDays bs revs seen

/-- `_extract_reviews_from_html(html)`: the returned `reviews` list. -/
def extract_reviews_from_html (nowDays : Int) (blocks : List Block) : List ReviewRec :=
  (extractLoop nowDays blocks [] []).1

/-- The candidate records of a snapshot: records of the well-formed blocks
that pass the noise filter, before any deduplication or cap. -/
def candidates (nowDays : Int) : List Block → List ReviewRec
  | [] => []
  | .malformed :: bs => candidates nowDays bs
  | .node f :: bs =>
    if passesTextFilter f then candRecord nowDays f :: candidates nowDays bs
    else candidates nowDays bs

end ScrapeReviews

/-- Keep the first element bearing each key, given the keys already seen:
the reference dedup-store semantics (`admit` succeeds exactly on the first
occurrence of a key). -/
def keepFirstBy {α : Type} (key : α → String) : List α → List String → List α
  | [], _ => []
  | x :: xs, seen =>
    if seen.contains (key x) then keepFirstBy key xs seen
    else x :: keepFirstBy key xs (key x :: seen)

namespace ScrapeReviews

/-! ## `_upsert_branch_and_reviews` (`src/scrape_reviews.py:162-206`)

The SQLAlchemy session is modelled as an explicit database value: the
`branches` table, the `reviews` table and the autoincrement counter for
`Branch.id`.  The wall-clock `scraped_at` columns are outside the
embedding.  With the session's default autoflush, rows added earlier in
the same call are visible to the duplicate query, which the model
reflects by threading the grown table. -/

/-- A `branches` row (the columns this module writes). -/
structure BranchRow where
  id : Nat
  name : String
  url : String
  place_id : String
deriving Repr, DecidableEq

/-- A `reviews` row (the columns this module writes). -/
structure ReviewRow where
  branch_id : Nat
  author : String
  rating : Nat
  text : String
  review_date : String
deriving Repr, DecidableEq

/-- The database state seen through `SessionLocal`. -/
structure DB where
  branches : List BranchRow
  reviewsTbl : List ReviewRow
  nextBranchId : Nat
deriving Repr, DecidableEq

/-- Replace the first row matching the predicate. -/
def replaceFirst (p : BranchRow → Bool) (b : BranchRow) : List BranchRow → List BranchRow
  | [] => []
  | x :: xs => if p x then b :: xs else x :: replaceFirst p b xs

/-- The `for r in reviews` insertion loop: a record is inserted unless a
row with the same `branch_id` and the same `text` already exists. -/
def insertReviews (bid : Nat) : List ReviewRec → List ReviewRow → List ReviewRow
  | [], rows => rows
  | r :: rs, rows =>
    if rows.any (fun row => row.branch_id = bid ∧ row.text = r.text) then
      insertReviews bid rs rows
    else
      insertReviews bid rs
        (rows ++ [{ branch_id := bid, author := r.author, rating := r.rating,
                    text := r.text, review_date := r.review_date }])

/-- `_upsert_branch_and_reviews(place_name, place_url, reviews)`: find or
create the branch keyed by `url` (an empty `place_name` is falsy, so
`place_name or …` falls back), then insert the not-yet-present reviews. -/
def upsert_branch_and_reviews (place_name place_url : String)
    (reviews : List ReviewRec) (db : DB) : DB :=
  match db.branches.find? (fun b => b.url = place_url) with
  | some b =>
    let b' := { b with name := if place_name = "" then b.name else place_name }
    { db with branches := replaceFirst (fun x => x.url = place_url) b' db.branches
              reviewsTbl := insertReviews b.id reviews db.reviewsTbl }
  | none =>
    let b : BranchRow :=
      { id := db.nextBranchId
        name := if place_name = "" then place_url else place_name
        url := place_url
        place_id := place_url }
    { branches := db.branches ++ [b]
      reviewsTbl := insertReviews b.id reviews db.reviewsTbl
      nextBranchId := db.nextBranchId + 1 }

/-! ## The scroll/expand convergence loop
(`src/scrape_reviews.py:327-405`)

The loop's interaction with the page is an observation sequence: at
iteration `n` the page shows `reviewCount n` review elements, the
wall-clock timeout check reads `timedOut n`, and the scroll-height probe
returns `height n`.  The loop state is exactly the three Python locals. -/

/-- `max_stagnant_loops = 15` (`src/scrape_reviews.py:329`). -/
def max_stagnant_loops : Nat := 15

/-- `max_total_attempts = 5` (`src/scrape_reviews.py:330`). -/
def max_total_attempts : Nat := 5

/-- What one iteration of the loop observes on the page. -/
structure ScrollObs where
  reviewCount : Nat
  timedOut : Bool
  height : Nat
deriving Repr, DecidableEq

/-- The loop's mutable locals `previous_height`, `stagnant_loops`,
`total_attempts`. -/
structure ScrollState where
  previous_height : Nat
  stagnant_loops : Nat
  total_attempts : Nat
deriving Repr, DecidableEq

/-- The state update of one full iteration: the height comparison
increments `stagnant_loops` and `total_attempts` on stagnation or resets
`stagnant_loops` and records the new height on growth; then the low-yield
rule resets `stagnant_loops` when it has reached `max_stagnant_loops`
while fewer than 10 review elements are loaded. -/
def scrollStep (o : ScrollObs) (s : ScrollState) : ScrollState :=
  let s' :=
    if o.height = s.previous_height then
      { s with stagnant_loops := s.stagnant_loops + 1
               total_attempts := s.total_attempts + 1 }
    else
      { s with stagnant_loops := 0, previous_height := o.height }
  if max_stagnant_loops ≤ s'.stagnant_loops ∧ o.reviewCount < 10 then
    { s' with stagnant_loops := 0 }
  else s'

/-- The loop state at the head of iteration `n`, starting from
`previous_height = 0`, `stagnant_loops = 0`, `total_attempts = 0`
(`src/scrape_reviews.py:327-331`). -/
def stateAt (obs : Nat → ScrollObs) : Nat → ScrollState
  | 0 => ⟨0, 0, 0⟩
  | n + 1 => scrollStep (obs n) (stateAt obs n)

/-- Does the loop stop at iteration `n`?  Either the `while` condition
`stagnant_loops < max_stagnant_loops and total_attempts <
max_total_attempts` fails, or the iteration hits one of its `break`s
(target review count reached, or wall-clock timeout). -/
def loopExitsAt (obs : Nat → ScrollObs) (n : Nat) : Bool :=
  let s := stateAt obs n
  ¬(s.stagnant_loops < max_stagnant_loops ∧ s.total_attempts < max_total_attempts) ∨
    MAX_REVIEWS_PER_BRANCH ≤ (obs n).reviewCount ∨ (obs n).timedOut

end ScrapeReviews

namespace ScrapeReviews

/-! ## `scrape_reviews_from_place_urls` (`src/scrape_reviews.py:219-443`)

Per feed descriptor the driver navigates, snapshots, re-opens a fresh
page, snapshots again, runs the scroll loop and snapshots once more, then
extracts and persists.  What the browser produces for one feed is a
`FeedBehavior`: the outcome of each navigation and the three snapshots the
driver inspects.  A snapshot pairs its serialized text (what
`_is_captcha_page` scans) with the item blocks parsed out of it.  The
internal click/scroll failures are caught by inner `try`s and only shape
the snapshots, so they need no separate outcome; `Playwright` errors of
the two navigations surface to the per-place `except` arms. -/

/-- A feed descriptor `{"name": ..., "url": ...}`. -/
structure Place where
  name : String
  url : String
deriving Repr, DecidableEq

/-- Outcome of a navigation (`page.goto` and its waits):
success, `PlaywrightTimeoutError`, or another raised exception whose
message is `str(e)`. -/
inductive NavOutcome
  | ok
  | timeout
  | error (msg : String)
deriving Repr, DecidableEq

/-- A structural snapshot: its serialized text and its parsed item
blocks. -/
structure Snapshot where
  text : String
  blocks : List Block
deriving Repr

/-- The browser's behavior for one feed: outcome of the first navigation,
the snapshot then taken, outcome of the fresh-page navigation, the
snapshot then taken, and the snapshot taken after the scroll loop. -/
structure FeedBehavior where
  nav1 : NavOutcome
  snapA : Snapshot
  nav2 : NavOutcome
  snapB : Snapshot
  snapC : Snapshot
deriving Repr

/-- One entry of the returned `results` list. -/
structure FeedResult where
  name : String
  url : String
  skipped : Bool
  reason : Option String
  found : Option Nat
deriving Repr, DecidableEq

/-- Result helper: the `skipped: True` records. -/
def skippedResult (pl : Place) (reason : String) : FeedResult :=
  { name := pl.name, url := pl.url, skipped := true, reason := some reason,
    found := none }

/-- Processing of one feed descriptor: the body of the `for place in
place_list` loop, returning the single result appended for this feed and
the database after it. -/
def processPlace (nowDays : Int) (pl : Place) (b : FeedBehavior) (db : DB) :
    FeedResult × DB :=
  match b.nav1 with
  | .timeout => (skippedResult pl "timeout", db)
  | .error e => (skippedResult pl e, db)
  | .ok =>
    if is_captcha_page b.snapA.text then (skippedResult pl "captcha", db)
    else
      match b.nav2 with
      | .timeout => (skippedResult pl "timeout", db)
      | .error e => (skippedResult pl e, db)
      | .ok =>
        if is_captcha_page b.snapB.text then (skippedResult pl "captcha", db)
        else if is_captcha_page b.snapC.text then
          (skippedResult pl "captcha_after_scroll", db)
        else
          let reviews := extract_reviews_from_html nowDays b.snapC.blocks
          ({ name := pl.name, url := pl.url, skipped := false, reason := none,
             found := some reviews.length },
           upsert_branch_and_reviews pl.name pl.url reviews db)

/-- The driver loop over the feed list: the browser environment assigns
each position its behavior; every descriptor contributes exactly one
result and the database threads through. -/
def runPlaces (nowDays : Int) (env : Nat → FeedBehavior) :
    List Place → Nat → DB → List FeedResult × DB
  | [], _, db => ([], db)
  | pl :: rest, i, db =>
    let rd := processPlace nowDays pl (env i) db
    let rds := runPlaces nowDays env rest (i + 1) rd.2
    (rd.1 :: rds.1, rds.2)

/-- `scrape_reviews_from_place_urls(place_list)` under browser environment
`env`, starting from database `db`. -/
def scrape_reviews_from_place_urls (nowDays : Int) (env : Nat → FeedBehavior)
    (place_list : List Place) (db : DB) : List FeedResult × DB :=
  runPlaces nowDays env place_list 0 db

end ScrapeReviews

namespace ScrapeCsv

/-! ## The CSV variant `_extract_reviews_from_html`
(`src/scrape.py:59-298`)

Only the fingerprint derivation and the deduplication loop
(`src/scrape.py:232-296`) are embedded structurally; the author, rating,
text and date selector chains are DOM-library work, so a block carries
the values those chains resolve to. -/

/-- Default of the CSV variant's `MAX_REVIEWS_PER_BRANCH` knob
(`src/scrape.py:28`). -/
def MAX_REVIEWS_PER_BRANCH : Nat := 200

/-- The resolved per-block data of the CSV extractor:
`dataReviewId` is the `data-review-id` attribute when the block carries
one; `author` is the outcome of the author chain (already defaulted to
`"Unknown"` when nothing matched); `rating` the outcome of the rating
chain after `rating or 0`; `reviewText` and `dateRaw` the outcomes of the
text and date chains. -/
structure CsvBlockFields where
  dataReviewId : Option String
  author : String
  rating : Nat
  reviewText : String
  dateRaw : String
deriving Repr, DecidableEq

/-- An item block of the CSV extractor; `malformed` is the
`except Exception: continue` arm. -/
inductive CsvBlock
  | node (f : CsvBlockFields)
  | malformed
deriving Repr, DecidableEq

/-- The review identity of a block (`src/scrape.py:262-273`): the
`data-review-id` attribute when present, else — and also when the
attribute's value is empty, since `review_id or fallback_id` tests
truthiness — the constructed string
`snippet:{first 160 chars of text}|author:{author}`. -/
def reviewIdOf (f : CsvBlockFields) : String :=
  let fallback := "snippet:" ++ String.mk (f.reviewText.data.take 160) ++
    "|author:" ++ f.author
  match f.dataReviewId with
  | some rid => if rid = "" then fallback else rid
  | none => fallback

/-- One row appended to the CSV extractor's `reviews` list (the branch
constants and the wall-clock `scraped_at` field are outside the
embedding). -/
structure CsvReviewRec where
  review_id : String
  author : String
  rating : Nat
  text : String
  date_raw : String
deriving Repr, DecidableEq

/-- The record a surviving CSV block yields (its `review_date`
normalisation reuses `parse_relative_date` and is kept in `date_raw`
form here; the claimed properties concern `review_id`). -/
def csvRecord (f : CsvBlockFields) : CsvReviewRec :=
  { review_id := reviewIdOf f, author := f.author, rating := f.rating,
    text := f.reviewText, date_raw := f.dateRaw }

/-- The CSV noise filter
(`if not review_text or len(review_text) < 10: continue`). -/
def csvPassesTextFilter (f : CsvBlockFields) : Bool :=
  !(f.reviewText = "" ∨ f.reviewText.data.length < 10)

/-- The `for b in blocks` loop of the CSV extractor: skip a malformed
block, skip a too-short text, compute the review identity, skip it if
already in `seen_texts`, else record it and append, breaking at
`MAX_REVIEWS_PER_BRANCH`. -/
def csvExtractLoop :
    List CsvBlock → List CsvReviewRec → List String → List CsvReviewRec × List String
  | [], revs, seen => (revs, seen)
  | .malformed :: bs, revs, seen => csvExtractLoop bs revs seen
  | .node f :: bs, revs, seen =>
    if csvPassesTextFilter f then
      let r := csvRecord f
      if seen.contains r.review_id then csvExtractLoop bs revs seen
      else
        let revs' := revs ++ [r]
        let seen' := r.review_id :: seen
        if MAX_REVIEWS_PER_BRANCH ≤ revs'.length then (revs', seen')
        else csvExtractLoop bs revs' seen'
    else csvExtractLoop bs revs seen

/-- The CSV `_extract_reviews_from_html`: the returned list. -/
def csvExtract (blocks : List CsvBlock) : List CsvReviewRec :=
  (csvExtractLoop blocks [] []).1

/-- The candidate records of the CSV extractor before deduplication. -/
def csvCandidates : List CsvBlock → List CsvReviewRec
  | [] => []
  | .malformed :: bs => csvCandidates bs
  | .node f :: bs =>
    if csvPassesTextFilter f then csvRecord f :: csvCandidates bs
    else csvCandidates bs

end ScrapeCsv


namespace ScrapeReviews

/-- Rewriting a block's `data-review-id` attribute. -/
def mapBlockId (g : String → String) : Block → Block
  | .node f => .node { f with dataReviewId := g f.dataReviewId }
  | .malformed => .malformed

/-- The per-feed results computed independently of the shared database:
each descriptor is processed against its own behavior, with the database
argument fixed to the empty one. -/
def resultsSpec (nowDays : Int) (env : Nat → FeedBehavior) :
    List Place → Nat → List FeedResult
  | [], _ => []
  | pl :: rest, i =>
    (processPlace nowDays pl (env i) ⟨[], [], 0⟩).1 ::
      resultsSpec nowDays env rest (i + 1)

end ScrapeReviews

/-- A concrete well-formed block used to witness C6. -/
def c6Block : ScrapeReviews.Block :=
  .node { dataReviewId := "rid-1", authorTag := some "Alice",
          ratingLabel := "5 stars", textContainer := some "Great food, great!",
          dateTag := none }

/-- A concrete block whose rating label parses to 9, refuting the claimed
`[0,5]` rating domain. -/
def c4Block : ScrapeReviews.Block :=
  .node { dataReviewId := "rid-9", authorTag := some "Bob",
          ratingLabel := "9 stars", textContainer := some "Rather nice place",
          dateTag := none }

/-- A concrete feed behavior whose first snapshot is an "unusual traffic"
interstitial. -/
def c3Behavior : ScrapeReviews.FeedBehavior :=
  { nav1 := .ok
    snapA := { text := "Our systems have detected unusual traffic from your network",
               blocks := [] }
    nav2 := .ok
    snapB := { text := "", blocks := [] }
    snapC := { text := "", blocks := [] } }

/-- Two blocks with distinct, present `data-review-id` attributes and
distinct authors but the same review text. -/
def c9FieldsA : ScrapeReviews.RawBlockFields :=
  { dataReviewId := "review-id-A", authorTag := some "Alice",
    ratingLabel := "5 stars", textContainer := some "Identical review body text",
    dateTag := none }

/-- Second block for the C9 counterexample. -/
def c9FieldsB : ScrapeReviews.RawBlockFields :=
  { dataReviewId := "review-id-B", authorTag := some "Bob",
    ratingLabel := "4 stars", textContainer := some "Identical review body text",
    dateTag := none }

/-! # Helper lemmas -/

/-- Every element kept by `keepFirstBy` bears a key outside `seen`, and
the kept keys are pairwise distinct. -/
theorem keepFirstBy_keys {α : Type} (key : α → String) :
    ∀ (xs : List α) (seen : List String),
      (∀ x ∈ keepFirstBy key xs seen, key x ∉ seen) ∧
        ((keepFirstBy key xs seen).map key).Nodup := by
  intro xs
  induction xs with
  | nil => intro seen; simp [keepFirstBy]
  | cons x xs ih =>
    intro seen
    by_cases h : key x ∈ seen
    · simpa [keepFirstBy, h] using ih seen
    · obtain ⟨ih1, ih2⟩ := ih (key x :: seen)
      have hexp : keepFirstBy key (x :: xs) seen =
          x :: keepFirstBy key xs (key x :: seen) := by
        simp [keepFirstBy, h]
      rw [hexp]
      refine ⟨?_, ?_⟩
      · intro y hy
        rcases List.mem_cons.1 hy with rfl | hy
        · exact h
        · have := ih1 y hy
          simp only [List.mem_cons] at this
          exact fun hc => this (Or.inr hc)
      · simp only [List.map_cons, List.nodup_cons]
        refine ⟨?_, ih2⟩
        intro hc
        simp only [List.mem_map] at hc
        obtain ⟨y, hy, hky⟩ := hc
        have := ih1 y hy
        simp [hky] at this

/-- Membership in a `keepFirstBy` result implies membership in the input
list. -/
theorem keepFirstBy_subset {α : Type} (key : α → String) :
    ∀ (xs : List α) (seen : List String) (x : α),
      x ∈ keepFirstBy key xs seen → x ∈ xs := by
  intro xs
  induction xs with
  | nil => intro seen x hx; simp [keepFirstBy] at hx
  | cons y xs ih =>
    intro seen x hx
    by_cases h : key y ∈ seen
    · exact List.mem_cons_of_mem _ (ih seen x (by simpa [keepFirstBy, h] using hx))
    · rw [show keepFirstBy key (y :: xs) seen =
          y :: keepFirstBy key xs (key y :: seen) by simp [keepFirstBy, h]] at hx
      rcases List.mem_cons.1 hx with rfl | hx
      · exact List.mem_cons_self _ _
      · exact List.mem_cons_of_mem _ (ih _ x hx)

namespace ScrapeReviews

/-- Unfolding of the extraction loop on a well-formed block that passes
the noise filter and bears an unseen snippet. -/
theorem extractLoop_cons_new (nowDays : Int) (f : RawBlockFields)
    (bs : List Block) (revs : List ReviewRec) (seen : List String)
    (hp : passesTextFilter f = true)
    (hs : snippetOf (candRecord nowDays f) ∉ seen) :
    extractLoop nowDays (.node f :: bs) revs seen =
      if MAX_REVIEWS_PER_BRANCH ≤ (revs ++ [candRecord nowDays f]).length then
        (revs ++ [candRecord nowDays f], snippetOf (candRecord nowDays f) :: seen)
      else extractLoop nowDays bs (revs ++ [candRecord nowDays f])
        (snippetOf (candRecord nowDays f) :: seen) := by
  simp [extractLoop, hp, hs]

/-- The extraction loop is the keep-first-per-snippet filter over the
candidate records, capped at the remaining quota. -/
theorem extractLoop_eq_keepFirstBy (nowDays : Int) :
    ∀ (bs : List Block) (revs : List ReviewRec) (seen : List String),
      revs.length < MAX_REVIEWS_PER_BRANCH →
      (extractLoop nowDays bs revs seen).1 =
        revs ++ (keepFirstBy snippetOf (candidates nowDays bs) seen).take
          (MAX_REVIEWS_PER_BRANCH - revs.length) := by
  intro bs
  induction bs with
  | nil => intro revs seen _; simp [extractLoop, candidates, keepFirstBy]
  | cons b bs ih =>
    intro revs seen hlen
    cases b with
    | malformed => simpa [extractLoop, candidates] using ih revs seen hlen
    | node f =>
      by_cases hp : passesTextFilter f
      · by_cases hs : snippetOf (candRecord nowDays f) ∈ seen
        · simpa [extractLoop, candidates, keepFirstBy, hp, hs] using ih revs seen hlen
        · have hcand : candidates nowDays (.node f :: bs) =
              candRecord nowDays f :: candidates nowDays bs := by
            simp [candidates, hp]
          have hkeep : keepFirstBy snippetOf
                (candRecord nowDays f :: candidates nowDays bs) seen =
              candRecord nowDays f :: keepFirstBy snippetOf (candidates nowDays bs)
                (snippetOf (candRecord nowDays f) :: seen) := by
            simp [keepFirstBy, hs]
          rw [extractLoop_cons_new nowDays f bs revs seen hp hs, hcand, hkeep]
          by_cases hm :
            MAX_REVIEWS_PER_BRANCH ≤ (revs ++ [candRecord nowDays f]).length
          · rw [if_pos hm]
            have h1 : MAX_REVIEWS_PER_BRANCH - revs.length = 1 := by
              simp only [List.length_append, List.length_cons, List.length_nil] at hm
              omega
            simp [h1]
          · rw [if_neg hm]
            have hlen' : (revs ++ [candRecord nowDays f]).length <
                MAX_REVIEWS_PER_BRANCH := by omega
            have h2 : MAX_REVIEWS_PER_BRANCH - revs.length =
                (MAX_REVIEWS_PER_BRANCH - (revs ++ [candRecord nowDays f]).length) + 1 := by
              simp only [List.length_append, List.length_cons, List.length_nil] at hm ⊢
              omega
            rw [ih (revs ++ [candRecord nowDays f])
              (snippetOf (candRecord nowDays f) :: seen) hlen', h2,
              List.take_succ_cons]
            simp
      · simpa [extractLoop, candidates, hp] using ih revs seen hlen

/-- `_extract_reviews_from_html` is the keep-first-per-snippet filter
over the candidate records, capped at the target count. -/
theorem extract_eq_keepFirstBy (nowDays : Int) (bs : List Block) :
    extract_reviews_from_html nowDays bs =
      (keepFirstBy snippetOf (candidates nowDays bs) []).take
        MAX_REVIEWS_PER_BRANCH := by
  have h := extractLoop_eq_keepFirstBy nowDays bs [] []
    (by simp [MAX_REVIEWS_PER_BRANCH])
  simpa [extract_reviews_from_html] using h

/-- Every record emitted by extraction is one of the snapshot's candidate
records. -/
theorem extract_mem_candidates (nowDays : Int) (bs : List Block)
    (r : ReviewRec) (hr : r ∈ extract_reviews_from_html nowDays bs) :
    r ∈ candidates nowDays bs := by
  rw [extract_eq_keepFirstBy nowDays bs] at hr
  exact keepFirstBy_subset snippetOf (candidates nowDays bs) [] r
    (List.mem_of_mem_take hr)

end ScrapeReviews

namespace ScrapeReviews

/-- The `seen_texts` set built by the extraction loop only grows: a key
present when the loop starts is still present when it returns. -/
theorem extractLoop_seen_mono (nowDays : Int) :
    ∀ (bs : List Block) (revs : List ReviewRec) (seen : List String)
      (k : String), k ∈ seen → k ∈ (extractLoop nowDays bs revs seen).2 := by
  intro bs
  induction bs with
  | nil => intro revs seen k hk; simpa [extractLoop] using hk
  | cons b bs ih =>
    intro revs seen k hk
    cases b with
    | malformed => simpa [extractLoop] using ih revs seen k hk
    | node f =>
      by_cases hp : passesTextFilter f
      · by_cases hs : snippetOf (candRecord nowDays f) ∈ seen
        · simpa [extractLoop, hp, hs] using ih revs seen k hk
        · rw [extractLoop_cons_new nowDays f bs revs seen hp hs]
          by_cases hm :
            MAX_REVIEWS_PER_BRANCH ≤ (revs ++ [candRecord nowDays f]).length
          · rw [if_pos hm]
            exact List.mem_cons_of_mem _ hk
          · rw [if_neg hm]
            exact ih (revs ++ [candRecord nowDays f])
              (snippetOf (candRecord nowDays f) :: seen) k
              (List.mem_cons_of_mem _ hk)
      · simpa [extractLoop, hp] using ih revs seen k hk

end ScrapeReviews

/-! # Claims -/

/-- C1 (dedup admit-once): for any snapshot, `_extract_reviews_from_html`
emits at most one record per fingerprint key (the 160-character text
snippet): the emitted list's keys are pairwise distinct, the function is
exactly the keep-first-occurrence filter over the candidate records
(capped at the target count), so the first record bearing a key is
emitted and every later candidate with the same key in the same call is
dropped, and the `seen_texts` key set never shrinks during the call. -/
theorem c1_dedup_admit_once :
    (∀ (nowDays : Int) (bs : List ScrapeReviews.Block),
      ((ScrapeReviews.extract_reviews_from_html nowDays bs).map
        ScrapeReviews.snippetOf).Nodup) ∧
    (∀ (nowDays : Int) (bs : List ScrapeReviews.Block),
      ScrapeReviews.extract_reviews_from_html nowDays bs =
        (keepFirstBy ScrapeReviews.snippetOf
          (ScrapeReviews.candidates nowDays bs) []).take
          ScrapeReviews.MAX_REVIEWS_PER_BRANCH) ∧
    (∀ (nowDays : Int) (bs : List ScrapeReviews.Block)
      (revs : List ScrapeReviews.ReviewRec) (seen : List String) (k : String),
      k ∈ seen → k ∈ (ScrapeReviews.extractLoop nowDays bs revs seen).2) := by
  have href := fun (nowDays : Int) (bs : List ScrapeReviews.Block) =>
    ScrapeReviews.extract_eq_keepFirstBy nowDays bs
  refine ⟨?_, href, fun nowDays bs revs seen k hk =>
    ScrapeReviews.extractLoop_seen_mono nowDays bs revs seen k hk⟩
  intro nowDays bs
  rw [href nowDays bs]
  have hnodup := (keepFirstBy_keys ScrapeReviews.snippetOf
    (ScrapeReviews.candidates nowDays bs) []).2
  exact hnodup.sublist ((List.take_sublist _ _).map ScrapeReviews.snippetOf)

/-- Witness for C1: instantiation of the seen-set monotonicity conjunct
at a concrete call. -/
theorem c1_dedup_admit_once_witness :
    "snippet-key" ∈ (ScrapeReviews.extractLoop 0 [] [] ["snippet-key"]).2 :=
  c1_dedup_admit_once.2.2 0 [] [] ["snippet-key"] "snippet-key" (by simp)

namespace ScrapeReviews

/-- Blocks whose processing raises are transparent to the extraction
loop: it behaves as if they were not in the snapshot. -/
theorem extractLoop_filter_malformed (nowDays : Int) :
    ∀ (bs : List Block) (revs : List ReviewRec) (seen : List String),
      extractLoop nowDays bs revs seen =
        extractLoop nowDays (bs.filter (fun b => !b.isMalformed)) revs seen := by
  intro bs
  induction bs with
  | nil => intro revs seen; rfl
  | cons b bs ih =>
    intro revs seen
    cases b with
    | malformed =>
      have hfc : (Block.malformed :: bs).filter (fun b => !b.isMalformed) =
          bs.filter (fun b => !b.isMalformed) := by
        simp [Block.isMalformed]
      rw [hfc]
      simpa [extractLoop] using ih revs seen
    | node f =>
      have hfc : (Block.node f :: bs).filter (fun b => !b.isMalformed) =
          Block.node f :: bs.filter (fun b => !b.isMalformed) := by
        simp [Block.isMalformed]
      rw [hfc]
      by_cases hp : passesTextFilter f
      · by_cases hs : snippetOf (candRecord nowDays f) ∈ seen
        · simp only [extractLoop, hp, ite_true]
          have hs' : seen.contains (snippetOf (candRecord nowDays f)) = true := by
            simpa using hs
          simp only [hs', ite_true]
          exact ih revs seen
        · rw [extractLoop_cons_new nowDays f bs revs seen hp hs,
            extractLoop_cons_new nowDays f (bs.filter (fun b => !b.isMalformed))
              revs seen hp hs]
          by_cases hm :
            MAX_REVIEWS_PER_BRANCH ≤ (revs ++ [candRecord nowDays f]).length
          · rw [if_pos hm, if_pos hm]
          · rw [if_neg hm, if_neg hm]
            exact ih _ _
      · have hp' : passesTextFilter f = false := by simpa using hp
        simp only [extractLoop, hp', Bool.false_eq_true, ite_false]
        exact ih revs seen

end ScrapeReviews

/-- C8 (per-block fault isolation): a block whose processing raises an
internal error is skipped and extraction continues with the remaining
blocks — the loop's result on a snapshot containing a raising block is
its result with that block removed, and in general extraction only
depends on the non-raising blocks; it always returns a record list (it is
a total function). -/
theorem c8_per_block_fault_isolation :
    (∀ (nowDays : Int) (pre post : List ScrapeReviews.Block)
      (revs : List ScrapeReviews.ReviewRec) (seen : List String),
      ScrapeReviews.extractLoop nowDays
          (pre ++ ScrapeReviews.Block.malformed :: post) revs seen =
        ScrapeReviews.extractLoop nowDays (pre ++ post) revs seen) ∧
    (∀ (nowDays : Int) (bs : List ScrapeReviews.Block),
      ScrapeReviews.extract_reviews_from_html nowDays bs =
        ScrapeReviews.extract_reviews_from_html nowDays
          (bs.filter (fun b => !b.isMalformed))) := by
  constructor
  · intro nowDays pre post revs seen
    rw [ScrapeReviews.extractLoop_filter_malformed nowDays
      (pre ++ ScrapeReviews.Block.malformed :: post) revs seen,
      ScrapeReviews.extractLoop_filter_malformed nowDays (pre ++ post) revs seen]
    congr 1
    simp [List.filter_append, ScrapeReviews.Block.isMalformed]
  · intro nowDays bs
    unfold ScrapeReviews.extract_reviews_from_html
    rw [ScrapeReviews.extractLoop_filter_malformed nowDays bs]

namespace ScrapeReviews

/-- Every candidate record has a text of at least 10 characters: the
noise filter guarantees it. -/
theorem candidates_text_length (nowDays : Int) :
    ∀ (bs : List Block) (r : ReviewRec),
      r ∈ candidates nowDays bs → 10 ≤ r.text.data.length := by
  intro bs
  induction bs with
  | nil => intro r hr; simp [candidates] at hr
  | cons b bs ih =>
    intro r hr
    cases b with
    | malformed => exact ih r (by simpa [candidates] using hr)
    | node f =>
      by_cases hp : passesTextFilter f
      · rw [show candidates nowDays (Block.node f :: bs) =
            candRecord nowDays f :: candidates nowDays bs by simp [candidates, hp]] at hr
        rcases List.mem_cons.1 hr with rfl | hr
        · have hp' := hp
          simp only [passesTextFilter, Bool.not_eq_true', decide_eq_false_iff_not,
            not_or, not_lt] at hp'
          simpa [candRecord] using hp'.2
        · exact ih r hr
      · exact ih r (by simpa [candidates, hp] using hr)

/-- A row present after `insertReviews` was either already present or
carries the text of one of the inserted records. -/
theorem insertReviews_mem (bid : Nat) :
    ∀ (revs : List ReviewRec) (rows : List ReviewRow) (row : ReviewRow),
      row ∈ insertReviews bid revs rows →
        row ∈ rows ∨ ∃ r ∈ revs, row.text = r.text := by
  intro revs
  induction revs with
  | nil => intro rows row h; exact Or.inl (by simpa [insertReviews] using h)
  | cons r rs ih =>
    intro rows row h
    by_cases hdup : ∃ x ∈ rows, x.branch_id = bid ∧ x.text = r.text
    · rcases ih rows row (by simpa [insertReviews, hdup] using h) with h1 | ⟨r', hr', ht⟩
      · exact Or.inl h1
      · exact Or.inr ⟨r', List.mem_cons_of_mem _ hr', ht⟩
    · have h' := ih _ row (by simpa [insertReviews, hdup] using h)
      rcases h' with h1 | ⟨r', hr', ht⟩
      · rcases List.mem_append.1 h1 with h2 | h2
        · exact Or.inl h2
        · refine Or.inr ⟨r, List.mem_cons_self _ _, ?_⟩
          simp only [List.mem_singleton] at h2
          subst h2
          rfl
      · exact Or.inr ⟨r', List.mem_cons_of_mem _ hr', ht⟩

end ScrapeReviews

/-- C6 (minimum text length): every record returned by extraction has a
text of at least 10 characters (a candidate with missing or shorter text
is discarded and never emitted), and hence every review row present after
persisting an extraction result is either a pre-existing row or has a
text of at least 10 characters. -/
theorem c6_minimum_text_length :
    (∀ (nowDays : Int) (bs : List ScrapeReviews.Block)
      (r : ScrapeReviews.ReviewRec),
      r ∈ ScrapeReviews.extract_reviews_from_html nowDays bs →
        10 ≤ r.text.data.length) ∧
    (∀ (nowDays : Int) (bs : List ScrapeReviews.Block)
      (name url : String) (db : ScrapeReviews.DB) (row : ScrapeReviews.ReviewRow),
      row ∈ (ScrapeReviews.upsert_branch_and_reviews name url
          (ScrapeReviews.extract_reviews_from_html nowDays bs) db).reviewsTbl →
        row ∈ db.reviewsTbl ∨ 10 ≤ row.text.data.length) := by
  have hext : ∀ (nowDays : Int) (bs : List ScrapeReviews.Block)
      (r : ScrapeReviews.ReviewRec),
      r ∈ ScrapeReviews.extract_reviews_from_html nowDays bs →
        10 ≤ r.text.data.length := by
    intro nowDays bs r hr
    exact ScrapeReviews.candidates_text_length nowDays bs r
      (ScrapeReviews.extract_mem_candidates nowDays bs r hr)
  refine ⟨hext, ?_⟩
  intro nowDays bs name url db row hrow
  have hmem : row ∈ ScrapeReviews.insertReviews
        (match db.branches.find? (fun b => b.url = url) with
         | some b => b.id
         | none => db.nextBranchId)
        (ScrapeReviews.extract_reviews_from_html nowDays bs) db.reviewsTbl := by
    cases hfind : db.branches.find? (fun b => b.url = url) with
    | none =>
      simpa [ScrapeReviews.upsert_branch_and_reviews, hfind] using hrow
    | some b =>
      simpa [ScrapeReviews.upsert_branch_and_reviews, hfind] using hrow
  rcases ScrapeReviews.insertReviews_mem _ _ _ _ hmem with h1 | ⟨r, hr, ht⟩
  · exact Or.inl h1
  · exact Or.inr (ht ▸ hext nowDays bs r hr)



/-- Witness for C6: the record extracted from `c6Block` and the row it
creates in an empty database both carry a text of at least 10
characters. -/
theorem c6_minimum_text_length_witness :
    10 ≤ (ScrapeReviews.ReviewRec.mk "Alice" 5 "Great food, great!"
      "").text.data.length ∧
    ((ScrapeReviews.ReviewRow.mk 0 "Alice" 5 "Great food, great!" "") ∈
        (⟨[], [], 0⟩ : ScrapeReviews.DB).reviewsTbl ∨
      10 ≤ (ScrapeReviews.ReviewRow.mk 0 "Alice" 5 "Great food, great!"
        "").text.data.length) :=
  ⟨c6_minimum_text_length.1 0 [c6Block] _ (by decide),
   c6_minimum_text_length.2 0 [c6Block] "Alices" "http://u" ⟨[], [], 0⟩ _ (by decide)⟩

namespace ScrapeReviews

/-- The single-digit regex only ever returns a value in `[0, 9]`. -/
theorem ratingSearch_le_nine :
    ∀ (l : List Char) (n : Nat), ratingSearch l = some n → n ≤ 9 := by
  intro l
  induction l with
  | nil => intro n h; simp [ratingSearch] at h
  | cons c rest ih =>
    intro n h
    unfold ratingSearch at h
    split at h
    case isTrue hd =>
      split at h
      · split at h
        · have := Option.some.inj h
          omega
        · split at h
          · have := Option.some.inj h
            omega
          · exact ih n h
      · split at h
        · have := Option.some.inj h
          omega
        · exact ih n h
    case isFalse hd => exact ih n h

/-- The rating each record receives is at most 9. -/
theorem ratingOfLabel_le_nine (s : String) : ratingOfLabel s ≤ 9 := by
  unfold ratingOfLabel parse_rating_from_text
  split
  · simp
  · cases hsearch : ratingSearch (s.data.map arabicMapChar) with
    | none => simp [hsearch]
    | some n => simpa [hsearch] using ratingSearch_le_nine _ n hsearch

/-- Every candidate record's rating lies in `[0, 9]`. -/
theorem candidates_rating_le_nine (nowDays : Int) :
    ∀ (bs : List Block) (r : ReviewRec),
      r ∈ candidates nowDays bs → r.rating ≤ 9 := by
  intro bs
  induction bs with
  | nil => intro r hr; simp [candidates] at hr
  | cons b bs ih =>
    intro r hr
    cases b with
    | malformed => exact ih r (by simpa [candidates] using hr)
    | node f =>
      by_cases hp : passesTextFilter f
      · rw [show candidates nowDays (Block.node f :: bs) =
            candRecord nowDays f :: candidates nowDays bs by simp [candidates, hp]] at hr
        rcases List.mem_cons.1 hr with rfl | hr
        · simpa [candRecord] using ratingOfLabel_le_nine f.ratingLabel
        · exact ih r hr
      · exact ih r (by simpa [candidates, hp] using hr)

end ScrapeReviews



/-- Counterexample to C4 as stated: the snapshot holding only `c4Block`
yields exactly one record, and its rating is 9, outside the claimed
interval `[0,5]`. -/
theorem c4_rating_domain_counterexample :
    (ScrapeReviews.extract_reviews_from_html 0 [c4Block]).length = 1 ∧
      ((ScrapeReviews.extract_reviews_from_html 0 [c4Block]).headD
        ⟨"", 0, "", ""⟩).rating = 9 := by
  constructor
  · rfl
  · rfl

/-- C4 amended (rating domain): for every snapshot, every record in the
output of the `src/scrape_reviews.py` extractor has an integer rating in
`[0,9]` — its rating regex captures a single decimal digit and is not
clamped to 5 — and rating text from which no rating can be parsed yields
exactly 0. -/
theorem c4_rating_domain_amended :
    (∀ (nowDays : Int) (bs : List ScrapeReviews.Block)
      (r : ScrapeReviews.ReviewRec),
      r ∈ ScrapeReviews.extract_reviews_from_html nowDays bs → r.rating ≤ 9) ∧
    (∀ (s : String), ScrapeReviews.ratingOfLabel s ≤ 9) ∧
    (∀ (s : String), ScrapeReviews.parse_rating_from_text s = none →
      ScrapeReviews.ratingOfLabel s = 0) := by
  refine ⟨?_, ScrapeReviews.ratingOfLabel_le_nine, ?_⟩
  · intro nowDays bs r hr
    exact ScrapeReviews.candidates_rating_le_nine nowDays bs r
      (ScrapeReviews.extract_mem_candidates nowDays bs r hr)
  · intro s hs
    simp [ScrapeReviews.ratingOfLabel, hs]

/-- Witness for the amended C4: the record extracted from `c4Block` has a
rating within `[0,9]`, and the unparsable label `"no stars here"` yields
rating 0. -/
theorem c4_rating_domain_amended_witness :
    (ScrapeReviews.ReviewRec.mk "Bob" 9 "Rather nice place" "").rating ≤ 9 ∧
      ScrapeReviews.ratingOfLabel "no stars here" = 0 :=
  ⟨c4_rating_domain_amended.1 0 [c4Block] _ (by decide),
   c4_rating_domain_amended.2.2 "no stars here" (by decide)⟩

/-- C3 (blocked short-circuit): a snapshot whose text contains the phrase
"unusual traffic" — matched case-insensitively as a substring — is flagged
by the pure detector `_is_captcha_page`, and a feed whose inspected
snapshot is flagged is terminated as blocked for that iteration: its
result is a skipped record with no found-count and the database is left
untouched (zero records extracted, zero persisted). -/
theorem c3_blocked_short_circuit :
    (∀ (s : String),
      containsSub (lowerList s.data) ("unusual traffic".data) = true →
        ScrapeReviews.is_captcha_page s = true) ∧
    (∀ (nowDays : Int) (pl : ScrapeReviews.Place) (b : ScrapeReviews.FeedBehavior)
      (db : ScrapeReviews.DB),
      b.nav1 = .ok → b.nav2 = .ok →
      (ScrapeReviews.is_captcha_page b.snapA.text = true ∨
        ScrapeReviews.is_captcha_page b.snapB.text = true ∨
        ScrapeReviews.is_captcha_page b.snapC.text = true) →
      (ScrapeReviews.processPlace nowDays pl b db).1.skipped = true ∧
        (ScrapeReviews.processPlace nowDays pl b db).1.found = none ∧
        (ScrapeReviews.processPlace nowDays pl b db).2 = db) := by
  constructor
  · intro s hsub
    have hlit : lowerList ("unusual traffic".data) = "unusual traffic".data := by
      decide
    simp only [ScrapeReviews.is_captcha_page, ScrapeReviews.captcha_signs,
      List.any_cons, Bool.or_eq_true]
    exact Or.inl (by rw [hlit]; exact hsub)
  · intro nowDays pl b db h1 h2 hcap
    unfold ScrapeReviews.processPlace
    rw [h1, h2]
    by_cases hA : ScrapeReviews.is_captcha_page b.snapA.text
    · simp [hA, ScrapeReviews.skippedResult]
    · by_cases hB : ScrapeReviews.is_captcha_page b.snapB.text
      · simp [hA, hB, ScrapeReviews.skippedResult]
      · have hC : ScrapeReviews.is_captcha_page b.snapC.text = true := by
          rcases hcap with h | h | h
          · exact absurd h hA
          · exact absurd h hB
          · exact h
        simp [hA, hB, hC, ScrapeReviews.skippedResult]



/-- Witness for C3: on the concrete blocked behavior the feed's result is
skipped with no found-count and an empty database stays empty. -/
theorem c3_blocked_short_circuit_witness :
    (ScrapeReviews.processPlace 0 ⟨"A", "http://a"⟩ c3Behavior
        ⟨[], [], 0⟩).1.skipped = true ∧
      (ScrapeReviews.processPlace 0 ⟨"A", "http://a"⟩ c3Behavior
        ⟨[], [], 0⟩).1.found = none ∧
      (ScrapeReviews.processPlace 0 ⟨"A", "http://a"⟩ c3Behavior
        ⟨[], [], 0⟩).2 = ⟨[], [], 0⟩ :=
  c3_blocked_short_circuit.2 0 ⟨"A", "http://a"⟩ c3Behavior ⟨[], [], 0⟩
    rfl rfl (Or.inl (by decide))

namespace ScrapeReviews



/-- The result record of one feed does not depend on the database state
the feed starts from. -/
theorem processPlace_db_indep (nowDays : Int) (pl : Place) (b : FeedBehavior)
    (db db' : DB) :
    (processPlace nowDays pl b db).1 = (processPlace nowDays pl b db').1 := by
  unfold processPlace
  cases b.nav1 with
  | timeout => rfl
  | error e => rfl
  | ok =>
    cases b.nav2 with
    | timeout => split_ifs <;> rfl
    | error e => split_ifs <;> rfl
    | ok => split_ifs <;> rfl

/-- The result record of one feed names exactly its descriptor. -/
theorem processPlace_name_url (nowDays : Int) (pl : Place) (b : FeedBehavior)
    (db : DB) :
    (processPlace nowDays pl b db).1.name = pl.name ∧
      (processPlace nowDays pl b db).1.url = pl.url := by
  unfold processPlace
  cases b.nav1 with
  | timeout => exact ⟨rfl, rfl⟩
  | error e => exact ⟨rfl, rfl⟩
  | ok =>
    cases b.nav2 with
    | timeout => split_ifs <;> exact ⟨rfl, rfl⟩
    | error e => split_ifs <;> exact ⟨rfl, rfl⟩
    | ok => split_ifs <;> exact ⟨rfl, rfl⟩

/-- The driver's result list is the independent per-feed processing of
each descriptor, whatever database states are threaded through. -/
theorem runPlaces_eq_resultsSpec (nowDays : Int) (env : Nat → FeedBehavior) :
    ∀ (places : List Place) (i : Nat) (db : DB),
      (runPlaces nowDays env places i db).1 = resultsSpec nowDays env places i := by
  intro places
  induction places with
  | nil => intro i db; rfl
  | cons pl rest ih =>
    intro i db
    simp only [runPlaces, resultsSpec]
    refine congrArg₂ _ ?_ (ih (i + 1) _)
    exact processPlace_db_indep nowDays pl (env i) db ⟨[], [], 0⟩

end ScrapeReviews

/-- C10 (per-feed isolation): for every input list of feed descriptors
and every browser environment — including ones where feeds are blocked,
time out, or raise — `scrape_reviews_from_place_urls` returns exactly one
result record per descriptor, in order, each naming its descriptor;
moreover each feed's result record depends only on that feed's descriptor
and behavior, never on the database state left by earlier feeds, so one
feed's failure cannot prevent or alter the processing of its
successors. -/
theorem c10_per_feed_isolation :
    (∀ (nowDays : Int) (env : Nat → ScrapeReviews.FeedBehavior)
      (places : List ScrapeReviews.Place) (db : ScrapeReviews.DB),
      (ScrapeReviews.scrape_reviews_from_place_urls nowDays env places db).1.length =
        places.length) ∧
    (∀ (nowDays : Int) (env : Nat → ScrapeReviews.FeedBehavior)
      (places : List ScrapeReviews.Place) (db : ScrapeReviews.DB),
      (ScrapeReviews.scrape_reviews_from_place_urls nowDays env places db).1.map
          (fun r => (r.name, r.url)) =
        places.map (fun p => (p.name, p.url))) ∧
    (∀ (nowDays : Int) (pl : ScrapeReviews.Place)
      (b : ScrapeReviews.FeedBehavior) (db db' : ScrapeReviews.DB),
      (ScrapeReviews.processPlace nowDays pl b db).1 =
        (ScrapeReviews.processPlace nowDays pl b db').1) ∧
    (∀ (nowDays : Int) (env : Nat → ScrapeReviews.FeedBehavior)
      (places : List ScrapeReviews.Place) (db : ScrapeReviews.DB),
      (ScrapeReviews.scrape_reviews_from_place_urls nowDays env places db).1 =
        ScrapeReviews.resultsSpec nowDays env places 0) := by
  have hspec : ∀ (nowDays : Int) (env : Nat → ScrapeReviews.FeedBehavior)
      (places : List ScrapeReviews.Place) (db : ScrapeReviews.DB),
      (ScrapeReviews.scrape_reviews_from_place_urls nowDays env places db).1 =
        ScrapeReviews.resultsSpec nowDays env places 0 := by
    intro nowDays env places db
    exact ScrapeReviews.runPlaces_eq_resultsSpec nowDays env places 0 db
  have hnames : ∀ (nowDays : Int) (env : Nat → ScrapeReviews.FeedBehavior)
      (places : List ScrapeReviews.Place) (i : Nat),
      (ScrapeReviews.resultsSpec nowDays env places i).map
          (fun r => (r.name, r.url)) =
        places.map (fun p => (p.name, p.url)) := by
    intro nowDays env places
    induction places with
    | nil => intro i; rfl
    | cons pl rest ih =>
      intro i
      simp only [ScrapeReviews.resultsSpec, List.map_cons, ih (i + 1)]
      obtain ⟨h1, h2⟩ := ScrapeReviews.processPlace_name_url nowDays pl (env i)
        ⟨[], [], 0⟩
      rw [h1, h2]
  refine ⟨?_, ?_, ScrapeReviews.processPlace_db_indep, hspec⟩
  · intro nowDays env places db
    have := congrArg List.length (hnames nowDays env places 0)
    simpa [hspec nowDays env places db] using this
  · intro nowDays env places db
    rw [hspec nowDays env places db]
    exact hnames nowDays env places 0

namespace ScrapeReviews

/-- After any iteration, `previous_height` holds the height that
iteration measured. -/
theorem scrollStep_previous (o : ScrollObs) (s : ScrollState) :
    (scrollStep o s).previous_height = o.height := by
  unfold scrollStep
  by_cases h : o.height = s.previous_height <;> simp only [h, ite_true, ite_false] <;>
    split_ifs <;> simp [h]

/-- A stagnant iteration (measured height equal to `previous_height`)
always increments `total_attempts`, whether or not the low-yield reset
fires. -/
theorem scrollStep_total_stagnant (o : ScrollObs) (s : ScrollState)
    (h : o.height = s.previous_height) :
    (scrollStep o s).total_attempts = s.total_attempts + 1 := by
  unfold scrollStep
  simp only [h, ite_true]
  split_ifs <;> rfl

/-- Once the height sequence is stable from iteration `i` on,
`previous_height` equals the stable height from iteration `i + 1` on. -/
theorem stateAt_previous_stable (obs : Nat → ScrollObs) (i : Nat) (H : Nat)
    (hstab : ∀ k, i ≤ k → (obs k).height = H) :
    ∀ k, i ≤ k → (stateAt obs (k + 1)).previous_height = H := by
  intro k hk
  rw [show stateAt obs (k + 1) = scrollStep (obs k) (stateAt obs k) from rfl,
    scrollStep_previous]
  exact hstab k hk

/-- Once the height sequence is stable from iteration `i` on,
`total_attempts` grows by one per iteration from `i + 1` on. -/
theorem stateAt_total_stable (obs : Nat → ScrollObs) (i : Nat) (H : Nat)
    (hstab : ∀ k, i ≤ k → (obs k).height = H) :
    ∀ j, j ≤ (stateAt obs (i + 1 + j)).total_attempts := by
  intro j
  induction j with
  | zero => exact Nat.zero_le _
  | succ j ih =>
    have hprev : (stateAt obs (i + 1 + j)).previous_height = H := by
      have := stateAt_previous_stable obs i H hstab (i + j) (Nat.le_add_right i j)
      simpa [Nat.add_assoc, Nat.add_comm 1 j] using this
    have hh : (obs (i + 1 + j)).height = H :=
      hstab (i + 1 + j) (by omega)
    have hstep : (stateAt obs (i + 1 + (j + 1))).total_attempts =
        (stateAt obs (i + 1 + j)).total_attempts + 1 := by
      rw [show i + 1 + (j + 1) = (i + 1 + j) + 1 from by omega]
      rw [show stateAt obs ((i + 1 + j) + 1) =
        scrollStep (obs (i + 1 + j)) (stateAt obs (i + 1 + j)) from rfl]
      exact scrollStep_total_stagnant _ _ (hprev ▸ hh)
    omega

/-- Once the heights are stable from iteration `i` on, the loop stops at
iteration `i + 1 + max_total_attempts` at the latest: by then
`total_attempts` has reached its ceiling. -/
theorem loop_exits_after_stable (obs : Nat → ScrollObs) (i : Nat) (H : Nat)
    (hstab : ∀ k, i ≤ k → (obs k).height = H) :
    loopExitsAt obs (i + 1 + max_total_attempts) = true := by
  have htot := stateAt_total_stable obs i H hstab max_total_attempts
  simp only [loopExitsAt, Bool.or_eq_true, decide_eq_true_eq]
  exact Or.inl (fun hc => absurd htot (by omega))

end ScrapeReviews

/-- C2 (convergence termination): for every observation sequence of the
scroll/expand loop whose measured scroll heights stabilize from some
iteration `i` on, the loop exits within the stagnation-patience bound
after `i` — it never loops indefinitely; moreover an iteration that
reaches the target review count or the per-branch wall-clock timeout is
always an exit, so the iteration count is bounded by the stagnation
counter, the max-total-attempts counter and the timeout together. -/
theorem c2_convergence_termination :
    (∀ (obs : Nat → ScrapeReviews.ScrollObs) (i : Nat) (H : Nat),
      (∀ k, i ≤ k → (obs k).height = H) →
      ∃ n, n ≤ i + ScrapeReviews.max_stagnant_loops ∧
        ScrapeReviews.loopExitsAt obs n = true) ∧
    (∀ (obs : Nat → ScrapeReviews.ScrollObs) (n : Nat),
      ScrapeReviews.MAX_REVIEWS_PER_BRANCH ≤ (obs n).reviewCount →
        ScrapeReviews.loopExitsAt obs n = true) ∧
    (∀ (obs : Nat → ScrapeReviews.ScrollObs) (n : Nat),
      (obs n).timedOut = true → ScrapeReviews.loopExitsAt obs n = true) := by
  refine ⟨?_, ?_, ?_⟩
  · intro obs i H hstab
    refine ⟨i + 1 + ScrapeReviews.max_total_attempts, ?_,
      ScrapeReviews.loop_exits_after_stable obs i H hstab⟩
    simp [ScrapeReviews.max_total_attempts, ScrapeReviews.max_stagnant_loops]
  · intro obs n h
    simp only [ScrapeReviews.loopExitsAt, Bool.or_eq_true, decide_eq_true_eq]
    exact Or.inr (Or.inl h)
  · intro obs n h
    simp only [ScrapeReviews.loopExitsAt, Bool.or_eq_true, decide_eq_true_eq]
    exact Or.inr (Or.inr h)

/-- Witness for C2: with constantly stagnant observations (height 7 from
the start, no timeout, no reviews) the loop exits within the
stagnation-patience bound of iteration 0, and the break conditions exit
at a concrete iteration. -/
theorem c2_convergence_termination_witness :
    (∃ n, n ≤ 0 + ScrapeReviews.max_stagnant_loops ∧
      ScrapeReviews.loopExitsAt (fun _ => ⟨0, false, 7⟩) n = true) ∧
      ScrapeReviews.loopExitsAt (fun _ => ⟨10, false, 7⟩) 3 = true ∧
      ScrapeReviews.loopExitsAt (fun _ => ⟨0, true, 7⟩) 5 = true :=
  ⟨c2_convergence_termination.1 (fun _ => ⟨0, false, 7⟩) 0 7 (fun _ _ => rfl),
   c2_convergence_termination.2.1 (fun _ => ⟨10, false, 7⟩) 3 (by decide),
   c2_convergence_termination.2.2 (fun _ => ⟨0, true, 7⟩) 5 rfl⟩

/-- C7 (low-yield stagnation retry): under the default constants
`max_stagnant_loops = 15` and `max_total_attempts = 5`, with
`total_attempts` incremented on every stagnant iteration, whenever the
stagnation counter has just reached `max_stagnant_loops` while fewer than
10 review elements are loaded, the iteration resets the stagnation
counter to zero; and the extra rounds this buys are bounded: once heights
are stable the loop still exits within `1 + max_total_attempts`
iterations of any point, so the retry can only add a bounded number of
rounds before the loop gives up. -/
theorem c7_low_yield_stagnation_retry :
    ScrapeReviews.max_stagnant_loops = 15 ∧
    ScrapeReviews.max_total_attempts = 5 ∧
    (∀ (o : ScrapeReviews.ScrollObs) (s : ScrapeReviews.ScrollState),
      o.height = s.previous_height →
        (ScrapeReviews.scrollStep o s).total_attempts = s.total_attempts + 1) ∧
    (∀ (o : ScrapeReviews.ScrollObs) (s : ScrapeReviews.ScrollState),
      o.height = s.previous_height →
      ScrapeReviews.max_stagnant_loops ≤ s.stagnant_loops + 1 →
      o.reviewCount < 10 →
        (ScrapeReviews.scrollStep o s).stagnant_loops = 0) ∧
    (∀ (obs : Nat → ScrapeReviews.ScrollObs) (i : Nat) (H : Nat),
      (∀ k, i ≤ k → (obs k).height = H) →
        ScrapeReviews.loopExitsAt obs
          (i + 1 + ScrapeReviews.max_total_attempts) = true) := by
  refine ⟨rfl, rfl, ScrapeReviews.scrollStep_total_stagnant, ?_,
    ScrapeReviews.loop_exits_after_stable⟩
  intro o s h hs hc
  unfold ScrapeReviews.scrollStep
  rw [if_pos h, if_pos (⟨hs, hc⟩ :
    ScrapeReviews.max_stagnant_loops ≤ s.stagnant_loops + 1 ∧ o.reviewCount < 10)]

/-- Witness for C7: concrete stagnant iterations — one that increments
the attempt counter, one that fires the low-yield reset at a counter
value of 15 with 3 loaded reviews, and a constant-height run that exits
by iteration 6. -/
theorem c7_low_yield_stagnation_retry_witness :
    (ScrapeReviews.scrollStep ⟨3, false, 7⟩ ⟨7, 2, 2⟩).total_attempts = 2 + 1 ∧
      (ScrapeReviews.scrollStep ⟨3, false, 7⟩ ⟨7, 14, 20⟩).stagnant_loops = 0 ∧
      ScrapeReviews.loopExitsAt (fun _ => ⟨3, false, 7⟩)
        (0 + 1 + ScrapeReviews.max_total_attempts) = true :=
  ⟨c7_low_yield_stagnation_retry.2.2.1 ⟨3, false, 7⟩ ⟨7, 2, 2⟩ rfl,
   c7_low_yield_stagnation_retry.2.2.2.1 ⟨3, false, 7⟩ ⟨7, 14, 20⟩ rfl
     (by decide) (by decide),
   c7_low_yield_stagnation_retry.2.2.2.2 (fun _ => ⟨3, false, 7⟩) 0 7
     (fun _ _ => rfl)⟩

namespace ScrapeReviews



/-- The noise filter never reads the `data-review-id` attribute. -/
theorem passesTextFilter_setId (g : String → String) (f : RawBlockFields) :
    passesTextFilter { f with dataReviewId := g f.dataReviewId } =
      passesTextFilter f := rfl

/-- The candidate record never reads the `data-review-id` attribute. -/
theorem candRecord_setId (nowDays : Int) (g : String → String)
    (f : RawBlockFields) :
    candRecord nowDays { f with dataReviewId := g f.dataReviewId } =
      candRecord nowDays f := rfl

/-- The extraction loop of `src/scrape_reviews.py` is invariant under any
rewriting of the blocks' `data-review-id` attributes: its deduplication
identity never involves the block-native identifier. -/
theorem extractLoop_map_id (nowDays : Int) (g : String → String) :
    ∀ (bs : List Block) (revs : List ReviewRec) (seen : List String),
      extractLoop nowDays (bs.map (mapBlockId g)) revs seen =
        extractLoop nowDays bs revs seen := by
  intro bs
  induction bs with
  | nil => intro revs seen; rfl
  | cons b bs ih =>
    intro revs seen
    cases b with
    | malformed =>
      simp only [List.map_cons, mapBlockId]
      rw [show extractLoop nowDays (Block.malformed :: bs.map (mapBlockId g))
            revs seen = extractLoop nowDays (bs.map (mapBlockId g)) revs seen
          from rfl,
        show extractLoop nowDays (Block.malformed :: bs) revs seen =
            extractLoop nowDays bs revs seen from rfl]
      exact ih revs seen
    | node f =>
      simp only [List.map_cons, mapBlockId]
      by_cases hp : passesTextFilter f
      · have hp' : passesTextFilter { f with dataReviewId := g f.dataReviewId } =
            true := by rw [passesTextFilter_setId]; exact hp
        by_cases hs : snippetOf (candRecord nowDays f) ∈ seen
        · have hl : extractLoop nowDays
              (Block.node { f with dataReviewId := g f.dataReviewId } ::
                bs.map (mapBlockId g)) revs seen =
              extractLoop nowDays (bs.map (mapBlockId g)) revs seen := by
            simp [extractLoop, hp', candRecord_setId, hs]
          have hr : extractLoop nowDays (Block.node f :: bs) revs seen =
              extractLoop nowDays bs revs seen := by
            simp [extractLoop, hp, hs]
          rw [hl, hr]
          exact ih revs seen
        · have hs' : snippetOf (candRecord nowDays
              { f with dataReviewId := g f.dataReviewId }) ∉ seen := by
            rw [candRecord_setId]; exact hs
          rw [extractLoop_cons_new nowDays _ _ revs seen hp' hs',
            extractLoop_cons_new nowDays f bs revs seen hp hs,
            candRecord_setId]
          by_cases hm :
            MAX_REVIEWS_PER_BRANCH ≤ (revs ++ [candRecord nowDays f]).length
          · rw [if_pos hm, if_pos hm]
          · rw [if_neg hm, if_neg hm]
            exact ih _ _
      · have hp' : passesTextFilter { f with dataReviewId := g f.dataReviewId } =
            false := by rw [passesTextFilter_setId]; simpa using hp
        have hpf : passesTextFilter f = false := by simpa using hp
        simp only [extractLoop, hp', hpf, Bool.false_eq_true, ite_false]
        exact ih revs seen

end ScrapeReviews

namespace ScrapeCsv

/-- Unfolding of the CSV extraction loop on a surviving block with an
unseen review identity. -/
theorem csvExtractLoop_cons_new (f : CsvBlockFields) (bs : List CsvBlock)
    (revs : List CsvReviewRec) (seen : List String)
    (hp : csvPassesTextFilter f = true)
    (hs : (csvRecord f).review_id ∉ seen) :
    csvExtractLoop (.node f :: bs) revs seen =
      if MAX_REVIEWS_PER_BRANCH ≤ (revs ++ [csvRecord f]).length then
        (revs ++ [csvRecord f], (csvRecord f).review_id :: seen)
      else csvExtractLoop bs (revs ++ [csvRecord f])
        ((csvRecord f).review_id :: seen) := by
  simp [csvExtractLoop, hp, hs]

/-- The CSV extraction loop is the keep-first filter over its candidate
records keyed by `review_id` — the native identifier when present and
non-empty, else the snippet/author fallback string — capped at the
remaining quota. -/
theorem csvExtractLoop_eq_keepFirstBy :
    ∀ (bs : List CsvBlock) (revs : List CsvReviewRec) (seen : List String),
      revs.length < MAX_REVIEWS_PER_BRANCH →
      (csvExtractLoop bs revs seen).1 =
        revs ++ (keepFirstBy (fun r => r.review_id) (csvCandidates bs) seen).take
          (MAX_REVIEWS_PER_BRANCH - revs.length) := by
  intro bs
  induction bs with
  | nil => intro revs seen _; simp [csvExtractLoop, csvCandidates, keepFirstBy]
  | cons b bs ih =>
    intro revs seen hlen
    cases b with
    | malformed => simpa [csvExtractLoop, csvCandidates] using ih revs seen hlen
    | node f =>
      by_cases hp : csvPassesTextFilter f
      · by_cases hs : (csvRecord f).review_id ∈ seen
        · simpa [csvExtractLoop, csvCandidates, keepFirstBy, hp, hs] using
            ih revs seen hlen
        · have hcand : csvCandidates (.node f :: bs) =
              csvRecord f :: csvCandidates bs := by
            simp [csvCandidates, hp]
          have hkeep : keepFirstBy (fun r => r.review_id)
                (csvRecord f :: csvCandidates bs) seen =
              csvRecord f :: keepFirstBy (fun r => r.review_id) (csvCandidates bs)
                ((csvRecord f).review_id :: seen) := by
            simp [keepFirstBy, hs]
          rw [csvExtractLoop_cons_new f bs revs seen hp hs, hcand, hkeep]
          by_cases hm : MAX_REVIEWS_PER_BRANCH ≤ (revs ++ [csvRecord f]).length
          · rw [if_pos hm]
            have h1 : MAX_REVIEWS_PER_BRANCH - revs.length = 1 := by
              simp only [List.length_append, List.length_cons, List.length_nil] at hm
              omega
            simp [h1]
          · rw [if_neg hm]
            have hlen' : (revs ++ [csvRecord f]).length <
                MAX_REVIEWS_PER_BRANCH := by omega
            have h2 : MAX_REVIEWS_PER_BRANCH - revs.length =
                (MAX_REVIEWS_PER_BRANCH - (revs ++ [csvRecord f]).length) + 1 := by
              simp only [List.length_append, List.length_cons, List.length_nil] at hm ⊢
              omega
            rw [ih (revs ++ [csvRecord f]) ((csvRecord f).review_id :: seen) hlen',
              h2, List.take_succ_cons]
            simp
      · simpa [csvExtractLoop, csvCandidates, hp] using ih revs seen hlen

end ScrapeCsv





/-- Counterexample to C9 as stated: in `src/scrape_reviews.py`'s
extractor, two blocks carrying distinct block-native identifiers (and
distinct authors) are still deduplicated against each other when their
texts share a 160-character snippet — only one record is extracted, so
the identity used for deduplication is neither the `data-review-id` nor a
hash involving the author. -/
theorem c9_fingerprint_derivation_counterexample :
    c9FieldsA.dataReviewId ≠ c9FieldsB.dataReviewId ∧
      c9FieldsA.authorTag ≠ c9FieldsB.authorTag ∧
      (ScrapeReviews.extract_reviews_from_html 0
        [.node c9FieldsA, .node c9FieldsB]).length = 1 :=
  ⟨by decide, by decide, by rfl⟩

/-- C9 amended (fingerprint derivation): the two extractor variants
derive the deduplication identity differently.  In the CSV variant
(`src/scrape.py`) the identity is the block-native `data-review-id` when
present and non-empty, else the derived key
`"snippet:" ++ first 160 characters of the text ++ "|author:" ++ author`
(a literal string, not a hash), and its extraction is exactly the
keep-first filter on that identity.  In the DB variant
(`src/scrape_reviews.py`) the identity is always the 160-character text
snippet: extraction is invariant under arbitrary rewriting of the
`data-review-id` attributes, and is the keep-first filter keyed on the
snippet alone. -/
theorem c9_fingerprint_derivation_amended :
    (∀ (bs : List ScrapeCsv.CsvBlock),
      ScrapeCsv.csvExtract bs =
        (keepFirstBy (fun r => r.review_id) (ScrapeCsv.csvCandidates bs) []).take
          ScrapeCsv.MAX_REVIEWS_PER_BRANCH) ∧
    (∀ (f : ScrapeCsv.CsvBlockFields),
      (ScrapeCsv.csvRecord f).review_id = ScrapeCsv.reviewIdOf f) ∧
    (∀ (nowDays : Int) (g : String → String) (bs : List ScrapeReviews.Block),
      ScrapeReviews.extract_reviews_from_html nowDays
          (bs.map (ScrapeReviews.mapBlockId g)) =
        ScrapeReviews.extract_reviews_from_html nowDays bs) ∧
    (∀ (nowDays : Int) (bs : List ScrapeReviews.Block),
      ScrapeReviews.extract_reviews_from_html nowDays bs =
        (keepFirstBy ScrapeReviews.snippetOf
          (ScrapeReviews.candidates nowDays bs) []).take
          ScrapeReviews.MAX_REVIEWS_PER_BRANCH) := by
  refine ⟨?_, fun f => rfl, ?_, ScrapeReviews.extract_eq_keepFirstBy⟩
  · intro bs
    have h := ScrapeCsv.csvExtractLoop_eq_keepFirstBy bs [] []
      (by simp [ScrapeCsv.MAX_REVIEWS_PER_BRANCH])
    simpa [ScrapeCsv.csvExtract] using h
  · intro nowDays g bs
    unfold ScrapeReviews.extract_reviews_from_html
    rw [ScrapeReviews.extractLoop_map_id nowDays g bs]

/-! ## Helper lemmas for the relative-date theorems -/

/-- A decimal digit (in the `\d` sense) lies in the ASCII or the
Arabic-Indic digit range. -/
theorem isPyDigit_ranges (c : Char) (h : isPyDigit c = true) :
    (48 ≤ c.toNat ∧ c.toNat ≤ 57) ∨ (1632 ≤ c.toNat ∧ c.toNat ≤ 1641) := by
  by_cases h1 : 48 ≤ c.toNat ∧ c.toNat ≤ 57
  · exact Or.inl h1
  · by_cases h2 : 1632 ≤ c.toNat ∧ c.toNat ≤ 1641
    · exact Or.inr h2
    · simp [isPyDigit, pyDigitVal, h1, h2] at h

/-- Lowercasing fixes decimal digits. -/
theorem pyLower_digit (c : Char) (h : isPyDigit c = true) : pyLower c = c := by
  rcases isPyDigit_ranges c h with h' | h' <;>
    exact if_neg (by omega)

/-- Decimal digits are not whitespace. -/
theorem isPySpace_digit (c : Char) (h : isPyDigit c = true) :
    isPySpace c = false := by
  rcases isPyDigit_ranges c h with h' | h' <;> simp [isPySpace] <;> omega

/-- Lowercasing fixes a digit run. -/
theorem lowerList_digits (ds : List Char) (h : ∀ c ∈ ds, isPyDigit c = true) :
    lowerList ds = ds := by
  induction ds with
  | nil => rfl
  | cons c l ih =>
    simp only [lowerList, List.map_cons] at *
    rw [pyLower_digit c (h c (List.mem_cons_self c l)),
      ih (fun x hx => h x (List.mem_cons_of_mem c hx))]

/-- `dropWhile` distributes over an append whose left part is not wholly
dropped. -/
theorem dropWhile_append_left {α : Type} (p : α → Bool) :
    ∀ (xs ys : List α), xs.dropWhile p ≠ [] →
      (xs ++ ys).dropWhile p = xs.dropWhile p ++ ys := by
  intro xs
  induction xs with
  | nil => intro ys h; exact absurd rfl h
  | cons a l ih =>
    intro ys h
    by_cases hp : p a
    · rw [List.cons_append, List.dropWhile_cons_of_pos hp,
        List.dropWhile_cons_of_pos hp]
      exact ih ys (by simpa [List.dropWhile_cons_of_pos hp] using h)
    · have hp' : p a = false := by simpa using hp
      rw [List.cons_append, List.dropWhile_cons_of_neg (by simp [hp']),
        List.dropWhile_cons_of_neg (by simp [hp']), List.cons_append]

/-- `rstrip` distributes over an append whose right part is untouched by
it and non-empty. -/
theorem rstrip_append (xs ys : List Char) (h : rstrip ys = ys) (hne : ys ≠ []) :
    rstrip (xs ++ ys) = xs ++ ys := by
  unfold rstrip at h ⊢
  have hdrop : ys.reverse.dropWhile isPySpace = ys.reverse := by
    have := congrArg List.reverse h
    simpa using this
  rw [List.reverse_append, dropWhile_append_left isPySpace ys.reverse xs.reverse
    (by rw [hdrop]; simpa using hne), hdrop]
  simp

/-- `lstrip` fixes a list whose head is a digit. -/
theorem lstrip_digit_head (c : Char) (l : List Char) (h : isPyDigit c = true) :
    lstrip (c :: l) = c :: l := by
  unfold lstrip
  rw [List.dropWhile_cons_of_neg (by simp [isPySpace_digit c h])]

/-- `stripList` fixes a digit run followed by a strip-fixed non-empty
suffix. -/
theorem stripList_digits_append (ds sfx : List Char) (hne : ds ≠ [])
    (hdig : ∀ c ∈ ds, isPyDigit c = true) (hsfx : rstrip sfx = sfx)
    (hsne : sfx ≠ []) :
    stripList (ds ++ sfx) = ds ++ sfx := by
  unfold stripList
  cases ds with
  | nil => exact absurd rfl hne
  | cons c l =>
    rw [List.cons_append, lstrip_digit_head c (l ++ sfx)
      (hdig c (List.mem_cons_self c l)), ← List.cons_append,
      rstrip_append (c :: l) sfx hsfx hsne]

/-! ## Scanning lemmas for the relative-date regex searches -/

namespace ScrapeReviews

/-- The trailing-source pattern `\s+on\s+.*$` cannot match at a
non-whitespace position. -/
theorem onSourceMatchAt_nonspace (c : Char) (l : List Char)
    (h : isPySpace c = false) : onSourceMatchAt (c :: l) = false := by
  unfold onSourceMatchAt
  rw [List.takeWhile_cons_of_neg (by simp [h])]
  simp

/-- Removing a trailing source suffix passes over a digit run. -/
theorem removeOnSuffix_digits_append (ds sfx : List Char)
    (hdig : ∀ c ∈ ds, isPyDigit c = true) :
    removeOnSuffix (ds ++ sfx) = ds ++ removeOnSuffix sfx := by
  induction ds with
  | nil => rfl
  | cons c l ih =>
    rw [List.cons_append]
    show (if onSourceMatchAt (c :: (l ++ sfx)) then []
      else c :: removeOnSuffix (l ++ sfx)) = (c :: l) ++ removeOnSuffix sfx
    rw [onSourceMatchAt_nonspace c (l ++ sfx)
      (isPySpace_digit c (hdig c (List.mem_cons_self c l)))]
    simp only [Bool.false_eq_true, ite_false, List.cons_append, List.cons_inj_right]
    exact ih (fun x hx => hdig x (List.mem_cons_of_mem c hx))

/-- `takeWhile isPyDigit` captures exactly a leading digit run. -/
theorem takeWhile_digits_append (ds sfx : List Char)
    (hdig : ∀ c ∈ ds, isPyDigit c = true)
    (hsfx : sfx.takeWhile isPyDigit = []) :
    (ds ++ sfx).takeWhile isPyDigit = ds := by
  induction ds with
  | nil => simpa using hsfx
  | cons c l ih =>
    rw [List.cons_append,
      List.takeWhile_cons_of_pos (hdig c (List.mem_cons_self c l)),
      ih (fun x hx => hdig x (List.mem_cons_of_mem c hx))]

/-- `dropWhile isPyDigit` skips exactly a leading digit run. -/
theorem dropWhile_digits_append (ds sfx : List Char)
    (hdig : ∀ c ∈ ds, isPyDigit c = true)
    (hsfx : sfx.dropWhile isPyDigit = sfx) :
    (ds ++ sfx).dropWhile isPyDigit = sfx := by
  induction ds with
  | nil => simpa using hsfx
  | cons c l ih =>
    rw [List.cons_append,
      List.dropWhile_cons_of_pos (hdig c (List.mem_cons_self c l)),
      ih (fun x hx => hdig x (List.mem_cons_of_mem c hx))]

/-- When the remainder after the digit run satisfies the `\s+unit`
continuation, the unit search matches at the leftmost digit and captures
the whole run. -/
theorem searchNumUnit_hit (ds sfx unit : List Char) (hne : ds ≠ [])
    (hdig : ∀ c ∈ ds, isPyDigit c = true)
    (htake : sfx.takeWhile isPyDigit = []) (hdrop : sfx.dropWhile isPyDigit = sfx)
    (hafter : afterNumTail sfx unit = true) :
    searchNumUnit (ds ++ sfx) unit = some (digitsVal ds) := by
  cases ds with
  | nil => exact absurd rfl hne
  | cons c l =>
    rw [List.cons_append]
    show (if isPyDigit c then
        if afterNumTail ((c :: (l ++ sfx)).dropWhile isPyDigit) unit then
          some (digitsVal ((c :: (l ++ sfx)).takeWhile isPyDigit))
        else searchNumUnit (l ++ sfx) unit
      else searchNumUnit (l ++ sfx) unit) = some (digitsVal (c :: l))
    rw [if_pos (hdig c (List.mem_cons_self c l)), ← List.cons_append,
      dropWhile_digits_append (c :: l) sfx hdig hdrop, if_pos hafter,
      takeWhile_digits_append (c :: l) sfx hdig htake]

/-- When the remainder after the digit run does not satisfy the `\s+unit`
continuation, the unit search moves past the digit run. -/
theorem searchNumUnit_miss (ds sfx unit : List Char)
    (hdig : ∀ c ∈ ds, isPyDigit c = true)
    (hdrop : sfx.dropWhile isPyDigit = sfx)
    (hafter : afterNumTail sfx unit = false) :
    searchNumUnit (ds ++ sfx) unit = searchNumUnit sfx unit := by
  induction ds with
  | nil => rfl
  | cons c l ih =>
    rw [List.cons_append]
    show (if isPyDigit c then
        if afterNumTail ((c :: (l ++ sfx)).dropWhile isPyDigit) unit then
          some (digitsVal ((c :: (l ++ sfx)).takeWhile isPyDigit))
        else searchNumUnit (l ++ sfx) unit
      else searchNumUnit (l ++ sfx) unit) = searchNumUnit sfx unit
    rw [if_pos (hdig c (List.mem_cons_self c l)), ← List.cons_append,
      dropWhile_digits_append (c :: l) sfx hdig hdrop, hafter]
    simp only [Bool.false_eq_true, ite_false]
    exact ih (fun x hx => hdig x (List.mem_cons_of_mem c hx))

/-- The full preprocessing chain of `parse_relative_date` (strip, lower,
source-suffix removal, strip) fixes a digit run followed by a fixed
suffix. -/
theorem processed_digits_append (ds sfx : List Char) (hne : ds ≠ [])
    (hdig : ∀ c ∈ ds, isPyDigit c = true)
    (hlow : lowerList sfx = sfx) (hrem : removeOnSuffix sfx = sfx)
    (hstrip : rstrip sfx = sfx) (hsne : sfx ≠ []) :
    stripList (removeOnSuffix (lowerList (stripList (ds ++ sfx)))) =
      ds ++ sfx := by
  rw [stripList_digits_append ds sfx hne hdig hstrip hsne,
    show lowerList (ds ++ sfx) = ds ++ sfx from by
      unfold lowerList at hlow ⊢
      rw [List.map_append, hlow]
      exact congrArg (· ++ sfx) (lowerList_digits ds hdig),
    removeOnSuffix_digits_append ds sfx hdig, hrem,
    stripList_digits_append ds sfx hne hdig hstrip hsne]

end ScrapeReviews

namespace ScrapeReviews

/-- `parse_relative_date` on a digit run followed by `" days ago"`
subtracts that many days from the observation date. -/
theorem parse_relative_date_days (nowDays : Int) (ds : List Char) (n : Nat)
    (hne : ds ≠ []) (hdig : ∀ c ∈ ds, isPyDigit c = true)
    (hval : digitsVal ds = n) :
    parse_relative_date nowDays (String.mk (ds ++ " days ago".data)) =
      formatDate (nowDays - n) := by
  have hstr : String.mk (ds ++ " days ago".data) ≠ "" := by
    intro hcon
    have hd := congrArg String.data hcon
    cases ds with
    | nil => exact hne rfl
    | cons c l => simp at hd
  simp only [parse_relative_date]
  rw [if_neg hstr,
    show ([' ', 'd', 'a', 'y', 's', ' ', 'a', 'g', 'o'] : List Char) =
      " days ago".data from rfl,
    show (['d', 'a', 'y'] : List Char) = "day".data from rfl,
    processed_digits_append ds (" days ago".data) hne hdig
      (by decide) (by decide) (by decide) (by decide),
    searchNumUnit_hit ds (" days ago".data) ("day".data) hne hdig
      (by decide) (by decide) (by decide)]
  simp [hval]

end ScrapeReviews

namespace ScrapeReviews

/-- `parse_relative_date` on a digit run followed by `" weeks ago"`
subtracts seven days per week from the observation date. -/
theorem parse_relative_date_weeks (nowDays : Int) (ds : List Char) (n : Nat)
    (hne : ds ≠ []) (hdig : ∀ c ∈ ds, isPyDigit c = true)
    (hval : digitsVal ds = n) :
    parse_relative_date nowDays (String.mk (ds ++ " weeks ago".data)) =
      formatDate (nowDays - 7 * n) := by
  have hstr : String.mk (ds ++ " weeks ago".data) ≠ "" := by
    intro hcon
    have hd := congrArg String.data hcon
    cases ds with
    | nil => exact hne rfl
    | cons c l => simp at hd
  simp only [parse_relative_date]
  rw [if_neg hstr,
    show ([' ', 'w', 'e', 'e', 'k', 's', ' ', 'a', 'g', 'o'] : List Char) =
      " weeks ago".data from rfl,
    show (['d', 'a', 'y'] : List Char) = "day".data from rfl,
    show (['w', 'e', 'e', 'k'] : List Char) = "week".data from rfl,
    processed_digits_append ds (" weeks ago".data) hne hdig
      (by decide) (by decide) (by decide) (by decide),
    searchNumUnit_miss ds (" weeks ago".data) ("day".data) hdig
      (by decide) (by decide),
    show searchNumUnit (" weeks ago".data) ("day".data) = none from by decide,
    searchNumUnit_hit ds (" weeks ago".data) ("week".data) hne hdig
      (by decide) (by decide) (by decide)]
  simp [hval]

/-- `parse_relative_date` on a digit run followed by `" months ago"`
subtracts thirty days per month from the observation date. -/
theorem parse_relative_date_months (nowDays : Int) (ds : List Char) (n : Nat)
    (hne : ds ≠ []) (hdig : ∀ c ∈ ds, isPyDigit c = true)
    (hval : digitsVal ds = n) :
    parse_relative_date nowDays (String.mk (ds ++ " months ago".data)) =
      formatDate (nowDays - 30 * n) := by
  have hstr : String.mk (ds ++ " months ago".data) ≠ "" := by
    intro hcon
    have hd := congrArg String.data hcon
    cases ds with
    | nil => exact hne rfl
    | cons c l => simp at hd
  simp only [parse_relative_date]
  rw [if_neg hstr,
    show ([' ', 'm', 'o', 'n', 't', 'h', 's', ' ', 'a', 'g', 'o'] : List Char) =
      " months ago".data from rfl,
    show (['d', 'a', 'y'] : List Char) = "day".data from rfl,
    show (['w', 'e', 'e', 'k'] : List Char) = "week".data from rfl,
    show (['m', 'o', 'n', 't', 'h'] : List Char) = "month".data from rfl,
    processed_digits_append ds (" months ago".data) hne hdig
      (by decide) (by decide) (by decide) (by decide),
    searchNumUnit_miss ds (" months ago".data) ("day".data) hdig
      (by decide) (by decide),
    show searchNumUnit (" months ago".data) ("day".data) = none from by decide,
    searchNumUnit_miss ds (" months ago".data) ("week".data) hdig
      (by decide) (by decide),
    show searchNumUnit (" months ago".data) ("week".data) = none from by decide,
    searchNumUnit_hit ds (" months ago".data) ("month".data) hne hdig
      (by decide) (by decide) (by decide)]
  simp [hval]

/-- `parse_relative_date` on a digit run followed by `" years ago"`
subtracts 365 days per year from the observation date. -/
theorem parse_relative_date_years (nowDays : Int) (ds : List Char) (n : Nat)
    (hne : ds ≠ []) (hdig : ∀ c ∈ ds, isPyDigit c = true)
    (hval : digitsVal ds = n) :
    parse_relative_date nowDays (String.mk (ds ++ " years ago".data)) =
      formatDate (nowDays - 365 * n) := by
  have hstr : String.mk (ds ++ " years ago".data) ≠ "" := by
    intro hcon
    have hd := congrArg String.data hcon
    cases ds with
    | nil => exact hne rfl
    | cons c l => simp at hd
  simp only [parse_relative_date]
  rw [if_neg hstr,
    show ([' ', 'y', 'e', 'a', 'r', 's', ' ', 'a', 'g', 'o'] : List Char) =
      " years ago".data from rfl,
    show (['d', 'a', 'y'] : List Char) = "day".data from rfl,
    show (['w', 'e', 'e', 'k'] : List Char) = "week".data from rfl,
    show (['m', 'o', 'n', 't', 'h'] : List Char) = "month".data from rfl,
    show (['y', 'e', 'a', 'r'] : List Char) = "year".data from rfl,
    processed_digits_append ds (" years ago".data) hne hdig
      (by decide) (by decide) (by decide) (by decide),
    searchNumUnit_miss ds (" years ago".data) ("day".data) hdig
      (by decide) (by decide),
    show searchNumUnit (" years ago".data) ("day".data) = none from by decide,
    searchNumUnit_miss ds (" years ago".data) ("week".data) hdig
      (by decide) (by decide),
    show searchNumUnit (" years ago".data) ("week".data) = none from by decide,
    searchNumUnit_miss ds (" years ago".data) ("month".data) hdig
      (by decide) (by decide),
    show searchNumUnit (" years ago".data) ("month".data) = none from by decide,
    searchNumUnit_hit ds (" years ago".data) ("year".data) hne hdig
      (by decide) (by decide) (by decide)]
  simp [hval]

end ScrapeReviews

/-- Counterexample to C5 as stated: the string `"January 2024"` is not
parseable as a relative date, yet it does not pass through unchanged —
the normalizer returns it lowercased. -/
theorem c5_date_normalization_counterexample :
    ScrapeReviews.parse_relative_date 0 "January 2024" ≠ "January 2024" ∧
      ScrapeReviews.parse_relative_date 0 "January 2024" = "january 2024" := by
  constructor
  · decide
  · decide

/-- C5 amended (date normalization): for every date string of the form
`"N days/weeks/months/years ago"`, the normalizer returns the observation
date minus N times the unit (a week is 7 days, a month 30·N days, a year
365·N days) formatted `YYYY-MM-DD`; in particular `"3 days ago"` observed
at 2024-01-10 yields `"2024-01-07"`, and the Arabic equivalents follow
the same arithmetic.  A string not parseable as a
relative date is returned stripped and lowercased, with any trailing
`" on <source>"` suffix removed — not unchanged — and the function
returns that single string (there is no separate empty normalized-date
field). -/
theorem c5_date_normalization_amended :
    (∀ (nowDays : Int) (ds : List Char) (n : Nat), ds ≠ [] →
      (∀ c ∈ ds, isPyDigit c = true) → digitsVal ds = n →
      ScrapeReviews.parse_relative_date nowDays
        (String.mk (ds ++ " days ago".data)) = formatDate (nowDays - n)) ∧
    (∀ (nowDays : Int) (ds : List Char) (n : Nat), ds ≠ [] →
      (∀ c ∈ ds, isPyDigit c = true) → digitsVal ds = n →
      ScrapeReviews.parse_relative_date nowDays
        (String.mk (ds ++ " weeks ago".data)) = formatDate (nowDays - 7 * n)) ∧
    (∀ (nowDays : Int) (ds : List Char) (n : Nat), ds ≠ [] →
      (∀ c ∈ ds, isPyDigit c = true) → digitsVal ds = n →
      ScrapeReviews.parse_relative_date nowDays
        (String.mk (ds ++ " months ago".data)) = formatDate (nowDays - 30 * n)) ∧
    (∀ (nowDays : Int) (ds : List Char) (n : Nat), ds ≠ [] →
      (∀ c ∈ ds, isPyDigit c = true) → digitsVal ds = n →
      ScrapeReviews.parse_relative_date nowDays
        (String.mk (ds ++ " years ago".data)) = formatDate (nowDays - 365 * n)) ∧
    (ScrapeReviews.parse_relative_date (daysFromCivil 2024 1 10) "3 days ago" =
      "2024-01-07") ∧
    (ScrapeReviews.parse_relative_date (daysFromCivil 2024 1 10) "قبل 3 يوم" =
      "2024-01-07") ∧
    (ScrapeReviews.parse_relative_date (daysFromCivil 2024 1 10) "قبل 2 أسبوع" =
      "2023-12-27") ∧
    (ScrapeReviews.parse_relative_date (daysFromCivil 2024 1 10) "قبل 2 شهر" =
      "2023-11-11") ∧
    (ScrapeReviews.parse_relative_date (daysFromCivil 2024 1 10) "قبل 3 سنة" =
      "2021-01-10") ∧
    (∀ (nowDays : Int),
      ScrapeReviews.parse_relative_date nowDays "2023" = "2023") ∧
    (∀ (nowDays : Int),
      ScrapeReviews.parse_relative_date nowDays "January 2024" = "january 2024") ∧
    (∀ (nowDays : Int),
      ScrapeReviews.parse_relative_date nowDays "bad service on Tripadvisor" =
        "bad service") := by
  refine ⟨ScrapeReviews.parse_relative_date_days,
    ScrapeReviews.parse_relative_date_weeks,
    ScrapeReviews.parse_relative_date_months,
    ScrapeReviews.parse_relative_date_years,
    by decide, by decide, by decide, by decide, by decide,
    fun _ => rfl, fun _ => rfl, fun _ => rfl⟩

/-- Witness for the amended C5: `"3 days ago"` observed on 2024-01-10
normalizes to three days earlier, and `"2 weeks ago"` to fourteen days
earlier. -/
theorem c5_date_normalization_amended_witness :
    ScrapeReviews.parse_relative_date (daysFromCivil 2024 1 10)
        (String.mk (['3'] ++ " days ago".data)) =
      formatDate (daysFromCivil 2024 1 10 - (3 : Nat)) ∧
    ScrapeReviews.parse_relative_date (daysFromCivil 2024 1 10)
        (String.mk (['2'] ++ " weeks ago".data)) =
      formatDate (daysFromCivil 2024 1 10 - 7 * (2 : Nat)) :=
  ⟨c5_date_normalization_amended.1 (daysFromCivil 2024 1 10) ['3'] 3
      (by decide) (by decide) (by decide),
   c5_date_normalization_amended.2.1 (daysFromCivil 2024 1 10) ['2'] 2
      (by decide) (by decide) (by decide)⟩
